import Mathlib

/-!
# jx-secret: the edit / populate resolution-and-commit engine

A shallow embedding of `pkg/cmd/edit/edit.go`, `pkg/cmd/populate/populate.go`
and `pkg/extsecrets/editor/factory/factory.go`.

Go strings are Lean strings, and Go values of type `(string, error)` are pairs
`String × Option Error` (`none` is a nil error).  The two commands live in the Go
packages `edit` and `populate`; their `Options` and `Run` are `edit.Options`,
`edit.Run`, `populate.Options` and `populate.Run` here.  Calls that leave the process (the masked prompt,
a generator, an editor's `Write`, the vault readiness probe) are fields of
an environment `Env W E`; they read and update an abstract world `W`, and
every such call is recorded, in call order, in the list of events that an
operation returns.
-/

namespace JxSecret

/-! ## Data model -/

/-- A Go `error` value, carried by its message. -/
structure Error where
  msg : String
deriving DecidableEq, Repr

/-- Go `errors.Wrapf(err, context)`: the context, a colon, the cause. -/
def Wrapf (err : Error) (context : String) : Error :=
  ⟨context ++ ": " ++ err.msg⟩

/-- Go `v1.Data`: one declared entry of an ExternalSecret (the fields the commands read). -/
structure Data where
  Key : String
  Property : String
deriving DecidableEq, Repr

/-- Go `secretfacade.EntryError`: the properties verification found missing for one key. -/
structure EntryError where
  Key : String
  Properties : List String
deriving DecidableEq, Repr

/-- Go `secretfacade.SecretError`: the value behind the pointer `SecretPair.Error`. -/
structure SecretError where
  EntryErrors : List EntryError
deriving DecidableEq, Repr

/-- Go `v1.ExternalSecret`, with `Spec.BackendType` and `Spec.Data` flattened. -/
structure ExternalSecret where
  Name : String
  BackendType : String
  Data : List Data
deriving DecidableEq, Repr

/-- Go `secretfacade.SecretPair`; `Error = none` is the nil pointer. -/
structure SecretPair where
  ExternalSecret : ExternalSecret
  Error : Option SecretError
deriving DecidableEq, Repr

/-- Go `schemaapi.Property`: the fields of a property specification the commands read.
`Labels` is the Go map as an association list. -/
structure Property where
  Name : String
  Question : String
  Help : String
  DefaultValue : String
  Generator : String
  Labels : List (String × String)
deriving DecidableEq, Repr

/-- Go `schemaapi.Object`. -/
structure Object where
  Name : String
  Properties : List Property
deriving DecidableEq, Repr

/-- Go `schemaapi.Schema`. -/
structure Schema where
  Objects : List Object
deriving DecidableEq, Repr

/-- Go `editor.PropertyValue`. -/
structure PropertyValue where
  Property : String
  Value : String
deriving DecidableEq, Repr

/-- Go `editor.KeyProperties`: the unit of commit. -/
structure KeyProperties where
  Key : String
  Properties : List PropertyValue
deriving DecidableEq, Repr

/-- Go `generators.Arguments`. -/
structure Arguments where
  Schema : Option Schema
  Object : Option Object
  Property : Property
deriving DecidableEq, Repr

/-- One call that leaves the process, with its arguments. -/
inductive Event (E : Type) where
  | prompt (message help : String)
  | write (ed : E) (kp : KeyProperties)
  | generate (name : String) (args : Arguments)
  | probe (waitDuration : Int)
deriving DecidableEq, Repr

/-- The result of an operation: its Go return value, the calls it made, the world after. -/
structure Out (W E α : Type) where
  res : α
  events : List (Event E)
  world : W

/-- Go `generators.Generator`: `func(*Arguments) (string, error)`. -/
abbrev Generator (W : Type) := Arguments → W → (String × Option Error) × W

/-- The collaborators of the two commands that are not part of the engine. -/
structure Env (W E : Type) where
  /-- The function `schema.FindObjectProperty(schema, objectName, property)`. -/
  FindObjectProperty : Option Schema → String → String → Option Object × Option Property × Option Error
  /-- The constant `schemaapi.LabelKind`, the label key holding a property's kind. -/
  LabelKind : String
  /-- The method `SecretPair.IsInvalid`. -/
  IsInvalid : SecretPair → Bool
  /-- The method `input.Interface.PickPassword(message, help)`. -/
  PickPassword : String → String → W → (String × Option Error) × W
  /-- The constructor `vault.NewEditor(commandRunner, client)`. -/
  vaultNewEditor : Except Error E
  /-- The constructor `gsm.NewEditor(commandRunner, client)`. -/
  gsmNewEditor : Except Error E
  /-- The method `editor.Interface.Write`. -/
  Write : E → KeyProperties → W → Option Error × W
  /-- The method `editor.KeyProperties.String`. -/
  kpString : KeyProperties → String
  /-- The method `wait.Options.Run`, given its `WaitDuration`. -/
  waitRun : Int → W → Option Error × W
  /-- The function `schema.LoadSchema` on `<dir>/.jx/gitops/secret-schema.yaml`. -/
  LoadSchema : String → Option Schema × Option Error
  /-- The order in which `range` visits the entries of the per-key map. -/
  mapOrder : W → List KeyProperties → List KeyProperties
  /-- The generator `generators.Hmac`. -/
  Hmac : Generator W
  /-- The generator `generators.Password`. -/
  Password : Generator W
  /-- The generator `generators.SecretEntry(client, namespace, secretName, entry)`. -/
  SecretEntry : String → String → String → Generator W

/-! ## strings.Contains -/

/-- Go `strings.Contains` on character lists: some suffix of `s` starts with `substr`. -/
def containsChars : List Char → List Char → Bool
  | [], substr => substr.isEmpty
  | c :: s, substr => substr.isPrefixOf (c :: s) || containsChars s substr

/-- Go `strings.Contains(s, substr)`. -/
def stringsContains (s substr : String) : Bool :=
  containsChars s.data substr.data

/-! ## edit: Matches and DataToEdit -/

/-- The options of `jx-secret edit` that the engine reads. -/
structure edit.Options where
  Dir : String
  Filter : String
deriving DecidableEq, Repr

/-- Method `Options.Matches` of `edit.go`. -/
def Matches {W E : Type} (env : Env W E) (o : edit.Options) (r : SecretPair) : Bool :=
  if o.Filter = "" then env.IsInvalid r
  else stringsContains r.ExternalSecret.Name o.Filter

/-- The set `missingProperties` built by `DataToEdit`: every property name of every
entry error, the key dropped. -/
def missingProperties (r : SecretPair) : List String :=
  match r.Error with
  | none => []
  | some err => err.EntryErrors.foldl (fun acc e => e.Properties.foldl (fun a n => n :: a) acc) []

/-- Method `Options.DataToEdit` of `edit.go`. -/
def DataToEdit (o : edit.Options) (r : SecretPair) : List Data :=
  if o.Filter ≠ "" then r.ExternalSecret.Data
  else r.ExternalSecret.Data.filter (fun d => decide (d.Property ∈ missingProperties r))

/-- Lookup in a Go `map[string]string`: the zero value "" for a missing key. -/
def labelLookup (labels : List (String × String)) (k : String) : String :=
  match labels.find? (fun p => p.1 == k) with
  | some p => p.2
  | none => ""

/-- Method `Options.propertyMessage` of `edit.go`. -/
def propertyMessage (s : SecretPair) (d : Data) : String × String :=
  (s.ExternalSecret.Name ++ "." ++ d.Property, "")

/-- Method `Options.askForSecretValue` of `edit.go`. -/
def askForSecretValue {W E : Type} (env : Env W E) (schema : Option Schema)
    (s : SecretPair) (d : Data) (w : W) : Out W E (String × Option Error) :=
  let name := s.ExternalSecret.Name
  let property := d.Property
  match env.FindObjectProperty schema name property with
  | (_, _, some err) =>
    ⟨("", some (Wrapf err ("failed to find schema property for object " ++ name ++
      " property " ++ property))), [], w⟩
  | (_, none, none) =>
    let mh := propertyMessage s d
    match env.PickPassword mh.1 mh.2 w with
    | ((_, some err), w1) =>
      ⟨("", some (Wrapf err ("failed to enter property " ++ property ++ " for key " ++ d.Key ++
        " on ExternalSecret " ++ name))), [Event.prompt mh.1 mh.2], w1⟩
    | ((value, none), w1) => ⟨(value, none), [Event.prompt mh.1 mh.2], w1⟩
  | (_, some propertySpec, none) =>
    let kind := labelLookup propertySpec.Labels env.LabelKind
    if kind = "confirm" then ⟨("", none), [], w⟩
    else
      match env.PickPassword propertySpec.Question propertySpec.Help w with
      | (r, w1) => ⟨r, [Event.prompt propertySpec.Question propertySpec.Help], w1⟩

/-! ## factory.NewEditor -/

/-- Function `NewEditor` of `factory.go`. -/
def NewEditor {W E : Type} (env : Env W E) (secret : ExternalSecret) : Except Error E :=
  let backendType := secret.BackendType
  if backendType = "vault" then env.vaultNewEditor
  else if backendType = "gcpSecretsManager" then env.gsmNewEditor
  else Except.error ⟨"unsupported ExternalSecret back end " ++ backendType⟩

/-- The editor cache step shared by both `Run` loops: `editors[backendType]`, or a new
editor from the factory stored under `backendType`; a factory error is wrapped. -/
def obtainEditor {W E : Type} (env : Env W E) (editors : String → Option E) (r : SecretPair) :
    Except Error (E × (String → Option E)) :=
  let name := r.ExternalSecret.Name
  let backendType := r.ExternalSecret.BackendType
  match editors backendType with
  | some ed => Except.ok (ed, editors)
  | none =>
    match NewEditor env r.ExternalSecret with
    | Except.error err =>
      Except.error (Wrapf err ("failed to create a secret editor for ExternalSecret " ++ name))
    | Except.ok ed => Except.ok (ed, fun k => if k = backendType then some ed else editors k)

/-! ## edit: Run -/

/-- The map read `m[key]` of the per-key map, kept in insertion order. -/
def lookupKey (m : List KeyProperties) (key : String) : Option KeyProperties :=
  m.find? (fun kp => kp.Key == key)

/-- The map after `if m[key] == nil { m[key] = &KeyProperties{Key: key} }`. -/
def ensureKey (m : List KeyProperties) (key : String) : List KeyProperties :=
  match lookupKey m key with
  | some _ => m
  | none => m ++ [⟨key, []⟩]

/-- The map after appending `pv` through the pointer stored at `m[key]`. -/
def appendProperty (m : List KeyProperties) (key : String) (pv : PropertyValue) :
    List KeyProperties :=
  m.map (fun kp => if kp.Key = key then { kp with Properties := kp.Properties ++ [pv] } else kp)

/-- The first inner loop of edit `Run` (lines 113-136): ask for each entry of `data`
and collect the answers per key. -/
def askAll {W E : Type} (env : Env W E) (schema : Option Schema) (r : SecretPair) :
    List Data → List KeyProperties → W → Out W E (List KeyProperties × Option Error)
  | [], m, w => ⟨(m, none), [], w⟩
  | d :: ds, m, w =>
    let m1 := ensureKey m d.Key
    let a := askForSecretValue env schema r d w
    match a.res with
    | (_, some err) =>
      ⟨(m1, some (Wrapf err ("failed to ask user secret value property " ++ d.Property ++
        " for key " ++ d.Key ++ " on ExternalSecret " ++ r.ExternalSecret.Name))),
        a.events, a.world⟩
    | (value, none) =>
      let m2 := appendProperty m1 d.Key ⟨d.Property, value⟩
      let rest := askAll env schema r ds m2 a.world
      ⟨rest.res, a.events ++ rest.events, rest.world⟩

/-- The second inner loop of edit `Run` (lines 137-142): write each visited entry. -/
def writeAll {W E : Type} (env : Env W E) (ed : E) (name : String) :
    List KeyProperties → W → Out W E (Option Error)
  | [], w => ⟨none, [], w⟩
  | kp :: kps, w =>
    match env.Write ed kp w with
    | (some err, w1) =>
      ⟨some (Wrapf err ("failed to save properties " ++ env.kpString kp ++
        " on ExternalSecret " ++ name)), [Event.write ed kp], w1⟩
    | (none, w1) =>
      let rest := writeAll env ed name kps w1
      ⟨rest.res, Event.write ed kp :: rest.events, rest.world⟩

/-- The body of `if o.Matches(r)` in edit `Run` (lines 110-142). -/
def editPair {W E : Type} (env : Env W E) (o : edit.Options) (schema : Option Schema)
    (ed : E) (r : SecretPair) (w : W) : Out W E (Option Error) :=
  let data := DataToEdit o r
  let c := askAll env schema r data [] w
  match c.res with
  | (_, some err) => ⟨some err, c.events, c.world⟩
  | (m, none) =>
    let wr := writeAll env ed r.ExternalSecret.Name (env.mapOrder c.world m) c.world
    ⟨wr.res, c.events ++ wr.events, wr.world⟩

/-- The loop `for _, r := range results` of edit `Run` (lines 93-144). -/
def editLoop {W E : Type} (env : Env W E) (o : edit.Options) (schema : Option Schema) :
    List SecretPair → (String → Option E) → W → Out W E (Option Error)
  | [], _, w => ⟨none, [], w⟩
  | r :: rs, editors, w =>
    match obtainEditor env editors r with
    | Except.error err => ⟨some err, [], w⟩
    | Except.ok (ed, editors1) =>
      if Matches env o r then
        let p := editPair env o schema ed r w
        match p.res with
        | some err => ⟨some err, p.events, p.world⟩
        | none =>
          let rest := editLoop env o schema rs editors1 p.world
          ⟨rest.res, p.events ++ rest.events, rest.world⟩
      else editLoop env o schema rs editors1 w

/-- Method `Options.Run` of `edit.go`; `verify` is what `o.Verify()` returned. -/
def edit.Run {W E : Type} (env : Env W E) (o : edit.Options)
    (verify : List SecretPair × Option Error) (w : W) : Out W E (Option Error) :=
  match verify with
  | (_, some err) => ⟨some (Wrapf err "failed to verify secrets"), [], w⟩
  | (results, none) =>
    if results.length = 0 then ⟨none, [], w⟩
    else
      match env.LoadSchema o.Dir with
      | (_, some err) =>
        ⟨some (Wrapf err "failed to load survey schema used to prompt the user for questions"),
          [], w⟩
      | (schema, none) => editLoop env o schema results (fun _ => none) w

/-! ## populate -/

/-- The options of `jx-secret populate` that the engine reads; `Generators` is the Go
map read through `o.Generators[name]`, `none` being the nil function a lookup yields
when no generator is stored under the name. -/
structure populate.Options (W : Type) where
  Dir : String
  Namespace : String
  WaitDuration : Int
  NoWait : Bool
  Generators : String → Option (Generator W)

/-- The map assignment `gens[name] = g`. -/
def setGenerator {W : Type} (gens : String → Option (Generator W)) (name : String)
    (g : Generator W) : String → Option (Generator W) :=
  fun k => if k = name then some g else gens k

/-- Method `Options.loadGenerators` of `populate.go`: the registry after the call. -/
def loadGenerators {W E : Type} (env : Env W E) (o : populate.Options W) :
    String → Option (Generator W) :=
  let g1 := setGenerator o.Generators "hmac" env.Hmac
  let g2 := setGenerator g1 "password" env.Password
  let g3 := setGenerator g2 "gitOperator.username" (env.SecretEntry o.Namespace "jx-boot" "username")
  setGenerator g3 "gitOperator.password" (env.SecretEntry o.Namespace "jx-boot" "password")

/-- Method `Options.generateSecretValue` of `populate.go`. -/
def generateSecretValue {W E : Type} (env : Env W E) (gens : String → Option (Generator W))
    (schema : Option Schema) (secretName property : String) (e : EntryError) (w : W) :
    Out W E (String × Option Error) :=
  match env.FindObjectProperty schema secretName property with
  | (_, _, some err) =>
    ⟨("", some (Wrapf err ("failed to find schema for entry " ++ e.Key ++ " property " ++
      property))), [], w⟩
  | (_, none, none) => ⟨("", none), [], w⟩
  | (object, some propertySchema, none) =>
    if propertySchema.DefaultValue ≠ "" then ⟨(propertySchema.DefaultValue, none), [], w⟩
    else
      let generatorName := propertySchema.Generator
      if generatorName = "" then ⟨("", none), [], w⟩
      else
        match gens generatorName with
        | none =>
          ⟨("", some ⟨"could not find generator " ++ generatorName ++ " for property " ++
            property ++ " in object " ++ secretName⟩), [], w⟩
        | some generator =>
          let args : Arguments := ⟨schema, object, propertySchema⟩
          match generator args w with
          | ((value, some err), w1) =>
            ⟨(value, some (Wrapf err ("failed to invoke generator " ++ generatorName ++
              " for property " ++ property ++ " in object " ++ secretName))),
              [Event.generate generatorName args], w1⟩
          | ((value, none), w1) => ⟨(value, none), [Event.generate generatorName args], w1⟩

/-- Method `Options.waitForBackend` of `populate.go`. -/
def waitForBackend {W E : Type} (env : Env W E) (o : populate.Options W) (backendType : String)
    (w : W) : Out W E (Option Error) :=
  if backendType ≠ "vault" then ⟨none, [], w⟩
  else if o.NoWait then ⟨none, [], w⟩
  else
    match env.waitRun o.WaitDuration w with
    | (some err, w1) =>
      ⟨some (Wrapf err "failed to wait for vault backend"), [Event.probe o.WaitDuration], w1⟩
    | (none, w1) => ⟨none, [Event.probe o.WaitDuration], w1⟩

/-- The loop `for _, property := range e.Properties` of populate `Run` (lines 119-132);
`acc` is `keyProperties.Properties` so far. -/
def populateProperties {W E : Type} (env : Env W E) (gens : String → Option (Generator W))
    (schema : Option Schema) (name : String) (e : EntryError) :
    List String → List PropertyValue → W → Out W E (List PropertyValue × Option Error)
  | [], acc, w => ⟨(acc, none), [], w⟩
  | property :: ps, acc, w =>
    let g := generateSecretValue env gens schema name property e w
    match g.res with
    | (_, some err) =>
      ⟨(acc, some (Wrapf err ("failed to ask user secret value property " ++ property ++
        " for key " ++ e.Key ++ " on ExternalSecret " ++ name))), g.events, g.world⟩
    | (value, none) =>
      let acc1 := if value = "" then acc else acc ++ [⟨property, value⟩]
      let rest := populateProperties env gens schema name e ps acc1 g.world
      ⟨rest.res, g.events ++ rest.events, rest.world⟩

/-- The loop `for _, e := range r.Error.EntryErrors` of populate `Run` (lines 115-140). -/
def populateEntries {W E : Type} (env : Env W E) (gens : String → Option (Generator W))
    (schema : Option Schema) (ed : E) (name : String) :
    List EntryError → W → Out W E (Option Error)
  | [], w => ⟨none, [], w⟩
  | e :: es, w =>
    let p := populateProperties env gens schema name e e.Properties [] w
    match p.res with
    | (_, some err) => ⟨some err, p.events, p.world⟩
    | (props, none) =>
      if props.length > 0 then
        let keyProperties : KeyProperties := ⟨e.Key, props⟩
        match env.Write ed keyProperties p.world with
        | (some err, w1) =>
          ⟨some (Wrapf err ("failed to save properties " ++ env.kpString keyProperties ++
            " on ExternalSecret " ++ name)), p.events ++ [Event.write ed keyProperties], w1⟩
        | (none, w1) =>
          let rest := populateEntries env gens schema ed name es w1
          ⟨rest.res, p.events ++ Event.write ed keyProperties :: rest.events, rest.world⟩
      else
        let rest := populateEntries env gens schema ed name es p.world
        ⟨rest.res, p.events ++ rest.events, rest.world⟩

/-- The body `if r.Error != nil { ... }` of populate `Run` (lines 114-141). -/
def populatePair {W E : Type} (env : Env W E) (gens : String → Option (Generator W))
    (schema : Option Schema) (ed : E) (r : SecretPair) (w : W) : Out W E (Option Error) :=
  match r.Error with
  | none => ⟨none, [], w⟩
  | some err => populateEntries env gens schema ed r.ExternalSecret.Name err.EntryErrors w

/-- The loop `for _, r := range results` of populate `Run` (lines 91-142). -/
def populateLoop {W E : Type} (env : Env W E) (o : populate.Options W)
    (gens : String → Option (Generator W)) (schema : Option Schema) :
    List SecretPair → (String → Bool) → (String → Option E) → W → Out W E (Option Error)
  | [], _, _, w => ⟨none, [], w⟩
  | r :: rs, waited, editors, w =>
    let backendType := r.ExternalSecret.BackendType
    let wt : Out W E (Option Error) :=
      if !waited backendType then waitForBackend env o backendType w else ⟨none, [], w⟩
    match wt.res with
    | some err =>
      ⟨some (Wrapf err ("failed to wait for backend type " ++ backendType)), wt.events, wt.world⟩
    | none =>
      let waited1 : String → Bool := fun k => if k = backendType then true else waited k
      match obtainEditor env editors r with
      | Except.error err => ⟨some err, wt.events, wt.world⟩
      | Except.ok (ed, editors1) =>
        let p := populatePair env gens schema ed r wt.world
        match p.res with
        | some err => ⟨some err, wt.events ++ p.events, p.world⟩
        | none =>
          let rest := populateLoop env o gens schema rs waited1 editors1 p.world
          ⟨rest.res, wt.events ++ (p.events ++ rest.events), rest.world⟩

/-- Method `Options.Run` of `populate.go`; `verify` is what `o.Verify()` returned. -/
def populate.Run {W E : Type} (env : Env W E) (o : populate.Options W)
    (verify : List SecretPair × Option Error) (w : W) : Out W E (Option Error) :=
  match verify with
  | (_, some err) => ⟨some (Wrapf err "failed to verify secrets"), [], w⟩
  | (results, none) =>
    if results.length = 0 then ⟨none, [], w⟩
    else
      let gens := loadGenerators env o
      match env.LoadSchema o.Dir with
      | (_, some err) =>
        ⟨some (Wrapf err "failed to load survey schema used to prompt the user for questions"),
          [], w⟩
      | (schema, none) =>
        populateLoop env o gens schema results (fun _ => false) (fun _ => none) w

/-! ## Reading a trace -/

/-- The `KeyProperties` passed to `Write`, in call order. -/
def writesOf {E : Type} : List (Event E) → List KeyProperties
  | [] => []
  | Event.write _ kp :: es => kp :: writesOf es
  | _ :: es => writesOf es

/-- The prompts issued, in call order. -/
def promptsOf {E : Type} : List (Event E) → List (String × String)
  | [] => []
  | Event.prompt m h :: es => (m, h) :: promptsOf es
  | _ :: es => promptsOf es

/-! ## Specification-side readings of the edit loop -/

/-- The properties stored under `key` in the per-key map (none when the key is absent). -/
def propertiesAt (m : List KeyProperties) (key : String) : List PropertyValue :=
  match lookupKey m key with
  | some kp => kp.Properties
  | none => []

/-- The values resolved for the candidate entries, in candidate order: the answers of
`askForSecretValue` asked one entry after the other; `none` when some answer fails. -/
def resolvedValues {W E : Type} (env : Env W E) (schema : Option Schema) (r : SecretPair) :
    List Data → W → Option (List String)
  | [], _ => some []
  | d :: ds, w =>
    match (askForSecretValue env schema r d w).res with
    | (_, some _) => none
    | (value, none) =>
      (resolvedValues env schema r ds (askForSecretValue env schema r d w).world).map
        (fun vs => value :: vs)

/-- The world after the candidate entries have been asked, one after the other. -/
def worldAfterAsking {W E : Type} (env : Env W E) (schema : Option Schema) (r : SecretPair) :
    List Data → W → W
  | [], w => w
  | d :: ds, w => worldAfterAsking env schema r ds (askForSecretValue env schema r d w).world

/-- The batch a key is due: one pair per candidate entry with that key, in candidate
order, carrying the value resolved for the entry. -/
def batchFor (key : String) (data : List Data) (values : List String) : List PropertyValue :=
  ((data.zip values).filter (fun p => decide (p.1.Key = key))).map
    (fun p => ⟨p.1.Property, p.2⟩)

/-! ## Specification-side readings of the populate loop -/

/-- The values resolved for the properties of one entry error, in reported order: the
results of `generateSecretValue` called one property after the other; `none` when some
call fails. -/
def generatedValues {W E : Type} (env : Env W E) (gens : String → Option (Generator W))
    (schema : Option Schema) (name : String) (e : EntryError) :
    List String → W → Option (List String)
  | [], _ => some []
  | property :: ps, w =>
    match (generateSecretValue env gens schema name property e w).res with
    | (_, some _) => none
    | (value, none) =>
      (generatedValues env gens schema name e ps
        (generateSecretValue env gens schema name property e w).world).map
        (fun vs => value :: vs)

/-- The batch of one entry error: its properties paired with their resolved values, in
reported order, the pairs with an empty value dropped. -/
def populateBatch (properties : List String) (values : List String) : List PropertyValue :=
  ((properties.zip values).filter (fun p => decide (p.2 ≠ ""))).map (fun p => ⟨p.1, p.2⟩)

/-- The world after the properties of one entry error have been resolved, one after the
other. -/
def worldAfterGenerating {W E : Type} (env : Env W E) (gens : String → Option (Generator W))
    (schema : Option Schema) (name : String) (e : EntryError) : List String → W → W
  | [], w => w
  | property :: ps, w =>
    worldAfterGenerating env gens schema name e ps
      (generateSecretValue env gens schema name property e w).world

/-- The batch of one entry error whose resolution starts in the world `w`: its
properties paired with the values resolved from `w` on, the blanks dropped. -/
def entryBatch {W E : Type} (env : Env W E) (gens : String → Option (Generator W))
    (schema : Option Schema) (name : String) (e : EntryError) (w : W) : List PropertyValue :=
  populateBatch e.Properties ((generatedValues env gens schema name e e.Properties w).getD [])

/-- The world after one entry error has been processed from the world `w`: its
properties resolved, then its batch written when the batch is not empty. -/
def worldAfterEntry {W E : Type} (env : Env W E) (gens : String → Option (Generator W))
    (schema : Option Schema) (ed : E) (name : String) (e : EntryError) (w : W) : W :=
  if (entryBatch env gens schema name e w).length > 0 then
    (env.Write ed ⟨e.Key, entryBatch env gens schema name e w⟩
      (worldAfterGenerating env gens schema name e e.Properties w)).2
  else worldAfterGenerating env gens schema name e e.Properties w

/-- The worlds in which the resolution of each entry error of a descriptor starts, the
first being `w`. -/
def entryWorlds {W E : Type} (env : Env W E) (gens : String → Option (Generator W))
    (schema : Option Schema) (ed : E) (name : String) : List EntryError → W → List W
  | [], _ => []
  | e :: es, w => w :: entryWorlds env gens schema ed name es
      (worldAfterEntry env gens schema ed name e w)

/-! ## Test fixtures -/

/-- An environment with two editors (`0` for vault, `1` for the GCP secret manager),
an empty schema index, a prompt that answers "s3cret", writes and probe that succeed,
a per-key map visited last key first, and a world counting the calls made. -/
def demoEnv : Env Nat Nat where
  FindObjectProperty := fun _ _ _ => (none, none, none)
  LabelKind := "kind"
  IsInvalid := fun r => match r.Error with
    | none => false
    | some e => decide (0 < e.EntryErrors.length)
  PickPassword := fun _ _ w => (("s3cret", none), w + 1)
  vaultNewEditor := Except.ok 0
  gsmNewEditor := Except.ok 1
  Write := fun _ _ w => (none, w + 1)
  kpString := fun kp => kp.Key
  waitRun := fun _ w => (none, w + 1)
  LoadSchema := fun _ => (none, none)
  mapOrder := fun _ m => m.reverse
  Hmac := fun _ w => (("hmac-value", none), w + 1)
  Password := fun _ w => (("generated", none), w + 1)
  SecretEntry := fun _ _ entry _ w => ((entry, none), w + 1)

/-- A property specification of the fixture schema. -/
def demoProperty (name default generator kind : String) : Property :=
  ⟨name, "Enter " ++ name, "help for " ++ name, default, generator, [("kind", kind)]⟩

/-- The fixture environment with a schema index: `password` has the generator
`password`, `token` has both a default value and the generator `hmac`, `optional` has
neither, `orphan` names an unregistered generator, `approve` is of kind `confirm`;
any other property is unknown to the schema. -/
def schemaEnv : Env Nat Nat :=
  { demoEnv with
    FindObjectProperty := fun _ _ property =>
      if property = "password" then (none, some (demoProperty "password" "" "password" ""), none)
      else if property = "token" then (none, some (demoProperty "token" "tok" "hmac" ""), none)
      else if property = "optional" then (none, some (demoProperty "optional" "" "" ""), none)
      else if property = "orphan" then (none, some (demoProperty "orphan" "" "nope" ""), none)
      else if property = "approve" then (none, some (demoProperty "approve" "" "" "confirm"), none)
      else (none, none, none) }

/-- Options of a populate run on the fixture: waiting enabled, no generators preset. -/
def demoPopulate : populate.Options Nat :=
  ⟨".", "jx", 300, false, fun _ => none⟩

/-- A descriptor named `db-creds` on vault: two entries under the key `creds`, one under
`tls`, all three reported missing. -/
def demoPair : SecretPair :=
  ⟨⟨"db-creds", "vault", [⟨"creds", "username"⟩, ⟨"creds", "password"⟩, ⟨"tls", "cert"⟩]⟩,
    some ⟨[⟨"creds", ["username", "password"]⟩, ⟨"tls", ["cert"]⟩]⟩⟩

/-- A descriptor whose verification error reports the key `creds` in two entry errors. -/
def splitPair : SecretPair :=
  ⟨⟨"db-creds", "vault", [⟨"creds", "token"⟩, ⟨"creds", "password"⟩]⟩,
    some ⟨[⟨"creds", ["token"]⟩, ⟨"creds", ["password"]⟩]⟩⟩

/-! ## Lemmas: strings.Contains -/

theorem containsChars_iff (s substr : List Char) :
    containsChars s substr = true ↔ ∃ pre post, s = pre ++ substr ++ post := by
  induction s with
  | nil =>
    simp only [containsChars, List.isEmpty_iff]
    constructor
    · intro h
      exact ⟨[], [], by simp [h]⟩
    · rintro ⟨pre, post, h⟩
      have h1 := congrArg List.length h
      simp only [List.length_nil, List.length_append] at h1
      exact List.length_eq_zero.mp (by omega)
  | cons c s ih =>
    simp only [containsChars, Bool.or_eq_true, List.isPrefixOf_iff_prefix, ih]
    constructor
    · rintro (⟨t, ht⟩ | ⟨pre, post, h⟩)
      · exact ⟨[], t, by simp [ht]⟩
      · exact ⟨c :: pre, post, by simp [h]⟩
    · rintro ⟨pre, post, h⟩
      cases pre with
      | nil => exact Or.inl ⟨post, by simpa using h.symm⟩
      | cons a pre =>
        simp only [List.cons_append, List.cons.injEq] at h
        exact Or.inr ⟨pre, post, h.2⟩

theorem stringsContains_iff (s substr : String) :
    stringsContains s substr = true ↔ ∃ pre post : String, s = pre ++ substr ++ post := by
  unfold stringsContains
  rw [containsChars_iff]
  constructor
  · rintro ⟨pre, post, h⟩
    refine ⟨⟨pre⟩, ⟨post⟩, ?_⟩
    apply String.ext
    simpa using h
  · rintro ⟨pre, post, h⟩
    refine ⟨pre.data, post.data, ?_⟩
    rw [h]
    simp

/-! ## Lemmas: DataToEdit -/

theorem mem_foldl_cons (ps : List String) (acc : List String) (n : String) :
    n ∈ ps.foldl (fun a x => x :: a) acc ↔ n ∈ ps ∨ n ∈ acc := by
  induction ps generalizing acc with
  | nil => simp
  | cons p ps ih =>
    simp only [List.foldl_cons, ih, List.mem_cons]
    tauto

theorem mem_foldl_entryErrors (es : List EntryError) (acc : List String) (n : String) :
    n ∈ es.foldl (fun acc e => e.Properties.foldl (fun a x => x :: a) acc) acc ↔
      (∃ e ∈ es, n ∈ e.Properties) ∨ n ∈ acc := by
  induction es generalizing acc with
  | nil => simp
  | cons e es ih =>
    rw [List.foldl_cons, ih, mem_foldl_cons]
    constructor
    · rintro (⟨x, hx, hn⟩ | h | h)
      · exact Or.inl ⟨x, List.mem_cons_of_mem _ hx, hn⟩
      · exact Or.inl ⟨e, List.mem_cons_self _ _, h⟩
      · exact Or.inr h
    · rintro (⟨x, hx, hn⟩ | h)
      · rcases List.mem_cons.mp hx with rfl | hx
        · exact Or.inr (Or.inl hn)
        · exact Or.inl ⟨x, hx, hn⟩
      · exact Or.inr (Or.inr h)

/-- What the unfiltered `DataToEdit` computes: a declared entry is a candidate iff some
entry error, of whatever key, lists its property name. -/
theorem mem_missingProperties (r : SecretPair) (n : String) :
    n ∈ missingProperties r ↔ ∃ err, r.Error = some err ∧ ∃ e ∈ err.EntryErrors, n ∈ e.Properties := by
  unfold missingProperties
  cases h : r.Error with
  | none => simp
  | some err =>
    have := mem_foldl_entryErrors err.EntryErrors [] n
    simp only [List.not_mem_nil, or_false] at this
    simpa using this

/-! ## Lemmas: the per-key map -/

theorem lookupKey_eq_none (m : List KeyProperties) (key : String) :
    lookupKey m key = none ↔ key ∉ m.map KeyProperties.Key := by
  unfold lookupKey
  rw [List.find?_eq_none]
  simp only [List.mem_map, not_exists, not_and, beq_iff_eq, Bool.not_eq_true]

theorem lookupKey_key (m : List KeyProperties) (key : String) (kp : KeyProperties)
    (h : lookupKey m key = some kp) : kp.Key = key ∧ kp ∈ m := by
  unfold lookupKey at h
  have h1 := List.find?_some h
  have h2 := List.mem_of_find?_eq_some h
  exact ⟨by simpa using h1, h2⟩

theorem keys_appendProperty (m : List KeyProperties) (key : String) (pv : PropertyValue) :
    (appendProperty m key pv).map KeyProperties.Key = m.map KeyProperties.Key := by
  unfold appendProperty
  rw [List.map_map]
  apply List.map_congr_left
  intro kp _
  simp only [Function.comp]
  split <;> rfl

theorem keys_ensureKey (m : List KeyProperties) (key : String) :
    (ensureKey m key).map KeyProperties.Key =
      if key ∈ m.map KeyProperties.Key then m.map KeyProperties.Key
      else m.map KeyProperties.Key ++ [key] := by
  unfold ensureKey
  cases h : lookupKey m key with
  | none =>
    have := (lookupKey_eq_none m key).mp h
    simp [this]
  | some kp =>
    have hn : ¬ (key ∉ m.map KeyProperties.Key) := by
      rw [← lookupKey_eq_none, h]
      simp
    simp only [not_not] at hn
    simp [hn]

theorem lookupKey_appendProperty (m : List KeyProperties) (key k : String)
    (pv : PropertyValue) :
    lookupKey (appendProperty m key pv) k =
      (lookupKey m k).map
        (fun kp => if kp.Key = key then { kp with Properties := kp.Properties ++ [pv] } else kp) := by
  unfold lookupKey appendProperty
  rw [List.find?_map]
  have hp : ((fun kp : KeyProperties => kp.Key == k) ∘
      (fun kp => if kp.Key = key then { kp with Properties := kp.Properties ++ [pv] } else kp))
      = (fun kp : KeyProperties => kp.Key == k) := by
    funext kp
    simp only [Function.comp]
    split <;> rfl
  rw [hp]

theorem propertiesAt_appendProperty (m : List KeyProperties) (key k : String)
    (pv : PropertyValue) (hk : key ∈ m.map KeyProperties.Key) :
    propertiesAt (appendProperty m key pv) k =
      propertiesAt m k ++ (if key = k then [pv] else []) := by
  unfold propertiesAt
  rw [lookupKey_appendProperty]
  cases h : lookupKey m k with
  | none =>
    have hn := (lookupKey_eq_none m k).mp h
    have : key ≠ k := fun e => hn (e ▸ hk)
    simp [this]
  | some kp =>
    have hkey := (lookupKey_key m k kp h).1
    by_cases e : key = k
    · simp [hkey, e]
    · have : ¬ kp.Key = key := fun e1 => e (e1.symm.trans hkey)
      simp [this, e]

theorem propertiesAt_ensureKey (m : List KeyProperties) (key k : String) :
    propertiesAt (ensureKey m key) k = propertiesAt m k := by
  unfold ensureKey
  cases h : lookupKey m key with
  | some kp => rfl
  | none =>
    simp only [propertiesAt, lookupKey, List.find?_append]
    cases h1 : List.find? (fun kp => kp.Key == k) m with
    | some kp => simp
    | none =>
      by_cases e : key = k <;> simp [List.find?_cons, e]

theorem mem_keys_ensureKey (m : List KeyProperties) (key : String) :
    key ∈ (ensureKey m key).map KeyProperties.Key := by
  rw [keys_ensureKey]
  split
  · assumption
  · simp

theorem propertiesAt_of_mem (m : List KeyProperties) (hnd : (m.map KeyProperties.Key).Nodup)
    (kp : KeyProperties) (hkp : kp ∈ m) : propertiesAt m kp.Key = kp.Properties := by
  induction m with
  | nil => cases hkp
  | cons a m ih =>
    simp only [List.map_cons, List.nodup_cons] at hnd
    rcases List.mem_cons.mp hkp with rfl | hm
    · simp [propertiesAt, lookupKey, List.find?_cons]
    · have hne : a.Key ≠ kp.Key := by
        intro e
        exact hnd.1 (e ▸ List.mem_map_of_mem _ hm)
      have h1 : (a.Key == kp.Key) = false := by simpa using hne
      have := ih hnd.2 hm
      simpa [propertiesAt, lookupKey, List.find?_cons, h1] using this

/-! ## Lemmas: traces -/

theorem writesOf_append {E : Type} (xs ys : List (Event E)) :
    writesOf (xs ++ ys) = writesOf xs ++ writesOf ys := by
  induction xs with
  | nil => rfl
  | cons x xs ih => cases x <;> simp [writesOf, ih]

theorem promptsOf_append {E : Type} (xs ys : List (Event E)) :
    promptsOf (xs ++ ys) = promptsOf xs ++ promptsOf ys := by
  induction xs with
  | nil => rfl
  | cons x xs ih => cases x <;> simp [promptsOf, ih]

theorem mem_writesOf {E : Type} (e : E) (kp : KeyProperties) :
    ∀ evs : List (Event E), Event.write e kp ∈ evs → kp ∈ writesOf evs := by
  intro evs
  induction evs with
  | nil => intro h; cases h
  | cons x xs ih =>
    intro h
    rcases List.mem_cons.mp h with hx | hx
    · rw [← hx]
      simp [writesOf]
    · cases x <;> simp [writesOf, ih hx]

theorem askForSecretValue_events {W E : Type} (env : Env W E) (schema : Option Schema)
    (r : SecretPair) (d : Data) (w : W) :
    (askForSecretValue env schema r d w).events = [] ∨
      ∃ message help, (askForSecretValue env schema r d w).events = [Event.prompt message help] := by
  rcases hl : env.FindObjectProperty schema r.ExternalSecret.Name d.Property with ⟨obj, ps, err⟩
  cases err with
  | some e => exact Or.inl (by simp [askForSecretValue, hl])
  | none =>
    cases ps with
    | none =>
      rcases hp : env.PickPassword (propertyMessage r d).1 (propertyMessage r d).2 w with
        ⟨⟨v, pe⟩, w1⟩
      cases pe <;>
        exact Or.inr ⟨(propertyMessage r d).1, (propertyMessage r d).2,
          by simp [askForSecretValue, hl, hp]⟩
    | some ps =>
      by_cases hk : labelLookup ps.Labels env.LabelKind = "confirm"
      · exact Or.inl (by simp [askForSecretValue, hl, hk])
      · exact Or.inr ⟨ps.Question, ps.Help, by simp [askForSecretValue, hl, hk]⟩

theorem writesOf_askForSecretValue {W E : Type} (env : Env W E) (schema : Option Schema)
    (r : SecretPair) (d : Data) (w : W) :
    writesOf (askForSecretValue env schema r d w).events = [] := by
  rcases askForSecretValue_events env schema r d w with h | ⟨m, hp, h⟩ <;> rw [h] <;> rfl

/-! ## Lemmas: the two inner loops of edit Run -/

theorem keys_collect (m : List KeyProperties) (d : Data) (v : String) :
    (appendProperty (ensureKey m d.Key) d.Key ⟨d.Property, v⟩).map KeyProperties.Key =
      if d.Key ∈ m.map KeyProperties.Key then m.map KeyProperties.Key
      else m.map KeyProperties.Key ++ [d.Key] := by
  rw [keys_appendProperty, keys_ensureKey]

theorem propertiesAt_collect (m : List KeyProperties) (d : Data) (v k : String) :
    propertiesAt (appendProperty (ensureKey m d.Key) d.Key ⟨d.Property, v⟩) k =
      propertiesAt m k ++ (if d.Key = k then [⟨d.Property, v⟩] else []) := by
  rw [propertiesAt_appendProperty _ _ _ _ (mem_keys_ensureKey m d.Key), propertiesAt_ensureKey]

theorem batchFor_cons (k : String) (d : Data) (ds : List Data) (v : String) (vs : List String) :
    batchFor k (d :: ds) (v :: vs) =
      (if d.Key = k then [⟨d.Property, v⟩] else []) ++ batchFor k ds vs := by
  unfold batchFor
  by_cases h : d.Key = k <;> simp [List.filter_cons, h]

theorem askAll_ok {W E : Type} (env : Env W E) (schema : Option Schema) (r : SecretPair) :
    ∀ (ds : List Data) (m : List KeyProperties) (w : W),
      (askAll env schema r ds m w).res.2 = none →
      ∃ values, resolvedValues env schema r ds w = some values ∧
        values.length = ds.length ∧
        (∀ k, propertiesAt (askAll env schema r ds m w).res.1 k =
          propertiesAt m k ++ batchFor k ds values) ∧
        (∀ k, k ∈ (askAll env schema r ds m w).res.1.map KeyProperties.Key ↔
          k ∈ m.map KeyProperties.Key ∨ k ∈ ds.map Data.Key) ∧
        ((m.map KeyProperties.Key).Nodup →
          ((askAll env schema r ds m w).res.1.map KeyProperties.Key).Nodup) ∧
        (askAll env schema r ds m w).world = worldAfterAsking env schema r ds w := by
  intro ds
  induction ds with
  | nil =>
    intro m w _
    exact ⟨[], rfl, rfl, by simp [askAll, batchFor], by simp [askAll], by simp [askAll], rfl⟩
  | cons d ds ih =>
    intro m w hok
    rcases ha : (askForSecretValue env schema r d w).res with ⟨v, _ | err⟩
    · simp only [askAll, ha] at hok ⊢
      obtain ⟨vs, hvs, hlen, hprops, hkeys, hnd, hw⟩ := ih _ _ hok
      refine ⟨v :: vs, ?_, by simp [hlen], ?_, ?_, ?_, ?_⟩
      · simp [resolvedValues, ha, hvs]
      · intro k
        rw [hprops k, propertiesAt_collect, batchFor_cons, List.append_assoc]
      · intro k
        rw [hkeys k, keys_collect]
        by_cases hm : d.Key ∈ m.map KeyProperties.Key
        · simp only [hm, if_true, List.map_cons, List.mem_cons]
          constructor
          · rintro (h | h)
            · exact Or.inl h
            · exact Or.inr (Or.inr h)
          · rintro (h | h | h)
            · exact Or.inl h
            · exact Or.inl (h ▸ hm)
            · exact Or.inr h
        · simp only [hm, if_false, List.map_cons, List.mem_cons, List.mem_append,
            List.mem_singleton]
          tauto
      · intro hm
        apply hnd
        rw [keys_collect]
        by_cases hmem : d.Key ∈ m.map KeyProperties.Key
        · simpa [hmem] using hm
        · simp only [hmem, if_false]
          rw [List.nodup_append]
          refine ⟨hm, List.nodup_singleton _, ?_⟩
          intro a ha1 ha2
          rw [List.mem_singleton] at ha2
          exact hmem (ha2 ▸ ha1)
      · rw [hw]
        rfl
    · simp [askAll, ha] at hok

theorem askAll_writes {W E : Type} (env : Env W E) (schema : Option Schema) (r : SecretPair) :
    ∀ (ds : List Data) (m : List KeyProperties) (w : W),
      writesOf (askAll env schema r ds m w).events = [] := by
  intro ds
  induction ds with
  | nil => intro m w; rfl
  | cons d ds ih =>
    intro m w
    rcases ha : (askForSecretValue env schema r d w).res with ⟨v, _ | err⟩
    · simp only [askAll, ha, writesOf_append, ih, List.append_nil]
      exact writesOf_askForSecretValue env schema r d w
    · simp only [askAll, ha]
      exact writesOf_askForSecretValue env schema r d w

theorem writeAll_ok {W E : Type} (env : Env W E) (ed : E) (name : String) :
    ∀ (kps : List KeyProperties) (w : W), (writeAll env ed name kps w).res = none →
      (writeAll env ed name kps w).events = kps.map (Event.write ed) := by
  intro kps
  induction kps with
  | nil => intro w _; rfl
  | cons kp kps ih =>
    intro w hok
    rcases hw : env.Write ed kp w with ⟨_ | err, w1⟩
    · simp only [writeAll, hw] at hok ⊢
      rw [ih w1 hok]
      rfl
    · simp [writeAll, hw] at hok

theorem writeAll_take {W E : Type} (env : Env W E) (ed : E) (name : String) :
    ∀ (kps : List KeyProperties) (w : W),
      ∃ n, (writeAll env ed name kps w).events = (kps.take n).map (Event.write ed) := by
  intro kps
  induction kps with
  | nil => intro w; exact ⟨0, rfl⟩
  | cons kp kps ih =>
    intro w
    rcases hw : env.Write ed kp w with ⟨_ | err, w1⟩
    · obtain ⟨n, hn⟩ := ih w1
      refine ⟨n + 1, ?_⟩
      simp only [writeAll, hw, hn, List.take_succ_cons, List.map_cons]
    · exact ⟨1, by simp [writeAll, hw]⟩

theorem writesOf_map_write {E : Type} (ed : E) (kps : List KeyProperties) :
    writesOf (kps.map (Event.write ed)) = kps := by
  induction kps with
  | nil => rfl
  | cons kp kps ih => simp [writesOf, ih]

/-! ## C1, C2: the target selector -/

/-- C1 (evaluation at the failing input). With no filter, `DataToEdit` on a descriptor
declaring `password` under the keys `k1` and `k2`, of which verification reports only
`k2`'s as missing, also returns the populated entry of `k1`: no entry error with key `k1`
lists the property, yet the entry is a candidate. -/
theorem C1_dataToEdit_returns_populated_entry :
    DataToEdit ⟨".", ""⟩
        ⟨⟨"db-creds", "vault", [⟨"k1", "password"⟩, ⟨"k2", "password"⟩]⟩,
          some ⟨[⟨"k2", ["password"]⟩]⟩⟩
      = [⟨"k1", "password"⟩, ⟨"k2", "password"⟩]
    ∧ ¬ ∃ e ∈ [(⟨"k2", ["password"]⟩ : EntryError)], e.Key = "k1" ∧ "password" ∈ e.Properties := by
  constructor
  · decide
  · decide

/-- C2. For a non-empty filter, a descriptor whose name contains the filter matches and
all its declared entries are returned in declared order, whatever its error holds; a
descriptor whose name does not contain the filter does not match, whatever
`IsInvalid` says. -/
theorem C2_filter_selects_by_name {W E : Type} (env : Env W E) (o : edit.Options)
    (r : SecretPair) (hf : o.Filter ≠ "") :
    ((∃ pre post : String, r.ExternalSecret.Name = pre ++ o.Filter ++ post) →
        Matches env o r = true ∧ DataToEdit o r = r.ExternalSecret.Data) ∧
    ((¬ ∃ pre post : String, r.ExternalSecret.Name = pre ++ o.Filter ++ post) →
        Matches env o r = false) := by
  constructor
  · intro h
    refine ⟨?_, ?_⟩
    · simp only [Matches, hf, if_false]
      exact (stringsContains_iff _ _).mpr h
    · simp [DataToEdit, hf]
  · intro h
    simp only [Matches, hf, if_false]
    cases hc : stringsContains r.ExternalSecret.Name o.Filter with
    | false => rfl
    | true => exact absurd ((stringsContains_iff _ _).mp hc) h

/-- The filter `creds` selects the descriptor `db-creds` and all its declared entries. -/
theorem C2_filter_selects_by_name_witness :
    "creds" ≠ "" ∧
    Matches demoEnv ⟨".", "creds"⟩ ⟨⟨"db-creds", "vault", [⟨"k", "password"⟩]⟩, none⟩ = true ∧
    DataToEdit ⟨".", "creds"⟩ ⟨⟨"db-creds", "vault", [⟨"k", "password"⟩]⟩, none⟩
      = [⟨"k", "password"⟩] :=
  ⟨by decide,
    (C2_filter_selects_by_name demoEnv ⟨".", "creds"⟩
      ⟨⟨"db-creds", "vault", [⟨"k", "password"⟩]⟩, none⟩ (by decide)).1
      ⟨"db-", "", by decide⟩⟩

/-! ## C3: the automatic strategy -/

/-- C3. The resolution order of `generateSecretValue`: (1) no property specification
gives the empty value; (2) a non-empty default is returned for every registry and
generator name, with no generator call; (3) no default and no generator name gives the
empty value; (4) a generator name the registry does not hold is an error; (5) a
registered generator is called exactly once on the schema, object and property, its
value is returned as it is, and the call fails iff the generator does; (6) an error
arises only from a failing lookup, an unregistered generator or a failing generator. -/
theorem C3_generateSecretValue_order {W E : Type} (env : Env W E)
    (gens : String → Option (Generator W)) (schema : Option Schema)
    (secretName property : String) (e : EntryError) (w : W) :
    (∀ object, env.FindObjectProperty schema secretName property = (object, none, none) →
      (generateSecretValue env gens schema secretName property e w).res = ("", none) ∧
      (generateSecretValue env gens schema secretName property e w).events = [] ∧
      (generateSecretValue env gens schema secretName property e w).world = w) ∧
    (∀ object ps, env.FindObjectProperty schema secretName property = (object, some ps, none) →
      (ps.DefaultValue ≠ "" →
        ∀ gens1 : String → Option (Generator W),
        (generateSecretValue env gens1 schema secretName property e w).res
          = (ps.DefaultValue, none) ∧
        (generateSecretValue env gens1 schema secretName property e w).events = [] ∧
        (generateSecretValue env gens1 schema secretName property e w).world = w) ∧
      (ps.DefaultValue = "" → ps.Generator = "" →
        (generateSecretValue env gens schema secretName property e w).res = ("", none) ∧
        (generateSecretValue env gens schema secretName property e w).events = [] ∧
        (generateSecretValue env gens schema secretName property e w).world = w) ∧
      (ps.DefaultValue = "" → ps.Generator ≠ "" → gens ps.Generator = none →
        (generateSecretValue env gens schema secretName property e w).res.2 ≠ none ∧
        (generateSecretValue env gens schema secretName property e w).events = [] ∧
        (generateSecretValue env gens schema secretName property e w).world = w) ∧
      (∀ generator, ps.DefaultValue = "" → ps.Generator ≠ "" →
        gens ps.Generator = some generator →
        (generateSecretValue env gens schema secretName property e w).events
          = [Event.generate ps.Generator ⟨schema, object, ps⟩] ∧
        (generateSecretValue env gens schema secretName property e w).res.1
          = (generator ⟨schema, object, ps⟩ w).1.1 ∧
        (generateSecretValue env gens schema secretName property e w).world
          = (generator ⟨schema, object, ps⟩ w).2 ∧
        ((generateSecretValue env gens schema secretName property e w).res.2 ≠ none ↔
          (generator ⟨schema, object, ps⟩ w).1.2 ≠ none))) ∧
    ((generateSecretValue env gens schema secretName property e w).res.2 ≠ none →
      (env.FindObjectProperty schema secretName property).2.2 ≠ none ∨
      ∃ object ps, env.FindObjectProperty schema secretName property = (object, some ps, none) ∧
        ps.DefaultValue = "" ∧ ps.Generator ≠ "" ∧
        (gens ps.Generator = none ∨
          ∃ generator, gens ps.Generator = some generator ∧
            (generator ⟨schema, object, ps⟩ w).1.2 ≠ none)) := by
  refine ⟨?_, ?_, ?_⟩
  · intro object h
    simp [generateSecretValue, h]
  · intro object ps h
    refine ⟨?_, ?_, ?_, ?_⟩
    · intro hd gens1
      simp [generateSecretValue, h, hd]
    · intro hd hg
      simp [generateSecretValue, h, hd, hg]
    · intro hd hg hn
      simp [generateSecretValue, h, hd, hg, hn]
    · intro generator hd hg hs
      rcases hgen : generator ⟨schema, object, ps⟩ w with ⟨⟨value, err⟩, w1⟩
      cases err <;> simp [generateSecretValue, h, hd, hg, hs, hgen]
  · intro herr
    rcases hl : env.FindObjectProperty schema secretName property with ⟨object, ps, lerr⟩
    cases lerr with
    | some le => exact Or.inl (by simp)
    | none =>
      right
      cases ps with
      | none => simp [generateSecretValue, hl] at herr
      | some ps =>
        by_cases hd : ps.DefaultValue = ""
        · by_cases hg : ps.Generator = ""
          · simp [generateSecretValue, hl, hd, hg] at herr
          · refine ⟨object, ps, rfl, hd, hg, ?_⟩
            cases hs : gens ps.Generator with
            | none => exact Or.inl rfl
            | some generator =>
              refine Or.inr ⟨generator, rfl, ?_⟩
              rcases hgen : generator ⟨schema, object, ps⟩ w with ⟨⟨value, err⟩, w1⟩
              cases err with
              | none => simp [generateSecretValue, hl, hd, hg, hs, hgen] at herr
              | some ge => simp
        · simp [generateSecretValue, hl, hd] at herr

/-- The property `token`, with a default and the generator `hmac`, resolves to its default
without any call. -/
theorem C3_generateSecretValue_order_witness :
    (demoProperty "token" "tok" "hmac" "").DefaultValue ≠ "" ∧
    (generateSecretValue schemaEnv (loadGenerators schemaEnv demoPopulate) none "db-creds"
        "token" ⟨"creds", ["token"]⟩ 0).res = ("tok", none) ∧
    (generateSecretValue schemaEnv (loadGenerators schemaEnv demoPopulate) none "db-creds"
        "token" ⟨"creds", ["token"]⟩ 0).events = [] ∧
    (generateSecretValue schemaEnv (loadGenerators schemaEnv demoPopulate) none "db-creds"
        "token" ⟨"creds", ["token"]⟩ 0).world = 0 :=
  ⟨by decide,
    ((C3_generateSecretValue_order schemaEnv (loadGenerators schemaEnv demoPopulate) none
      "db-creds" "token" ⟨"creds", ["token"]⟩ 0).2.1 none
      (demoProperty "token" "tok" "hmac" "") (by decide)).1 (by decide)
      (loadGenerators schemaEnv demoPopulate)⟩

/-! ## C4: one write per key in edit -/

/-- The writes of a successful `editPair`: the per-key map built from the candidate
entries and their resolved values, visited in the order of `mapOrder`. -/
theorem editPair_ok {W E : Type} (env : Env W E) (o : edit.Options)
    (schema : Option Schema) (ed : E) (r : SecretPair) (w : W)
    (hperm : ∀ w1 m, (env.mapOrder w1 m).Perm m)
    (hok : (editPair env o schema ed r w).res = none) :
    ∃ values, resolvedValues env schema r (DataToEdit o r) w = some values ∧
      values.length = (DataToEdit o r).length ∧
      ((writesOf (editPair env o schema ed r w).events).map KeyProperties.Key).Nodup ∧
      (∀ k, k ∈ (writesOf (editPair env o schema ed r w).events).map KeyProperties.Key ↔
        k ∈ (DataToEdit o r).map Data.Key) ∧
      (∀ kp ∈ writesOf (editPair env o schema ed r w).events,
        kp.Properties = batchFor kp.Key (DataToEdit o r) values) := by
  rcases hc : (askAll env schema r (DataToEdit o r) [] w).res with ⟨m, _ | err⟩
  · have hc2 : (askAll env schema r (DataToEdit o r) [] w).res.2 = none := by rw [hc]
    obtain ⟨values, hv, hlen, hprops, hkeys, hnd, _⟩ :=
      askAll_ok env schema r (DataToEdit o r) [] w hc2
    rw [hc] at hprops hkeys hnd
    simp only [List.map_nil, List.not_mem_nil, false_or, List.nodup_nil, forall_true_left]
      at hkeys hnd
    have hwr : (writeAll env ed r.ExternalSecret.Name
        (env.mapOrder (askAll env schema r (DataToEdit o r) [] w).world m)
        (askAll env schema r (DataToEdit o r) [] w).world).res = none := by
      simpa [editPair, hc] using hok
    have hev := writeAll_ok env ed r.ExternalSecret.Name _ _ hwr
    have hws : writesOf (editPair env o schema ed r w).events =
        env.mapOrder (askAll env schema r (DataToEdit o r) [] w).world m := by
      simp only [editPair, hc, writesOf_append, askAll_writes, List.nil_append, hev,
        writesOf_map_write]
    have hp := hperm (askAll env schema r (DataToEdit o r) [] w).world m
    refine ⟨values, hv, hlen, ?_, ?_, ?_⟩
    · rw [hws]
      exact (hp.map _).nodup_iff.mpr hnd
    · intro k
      rw [hws, (hp.map _).mem_iff]
      exact hkeys k
    · intro kp hkp
      rw [hws] at hkp
      have hm : kp ∈ m := hp.mem_iff.mp hkp
      have h1 := propertiesAt_of_mem m hnd kp hm
      rw [← h1, hprops kp.Key]
      simp [propertiesAt, lookupKey]
  · simp [editPair, hc] at hok

/-- Every `Write` of `editPair` goes to the editor it was given. -/
theorem editPair_editor {W E : Type} (env : Env W E) (o : edit.Options)
    (schema : Option Schema) (ed : E) (r : SecretPair) (w : W) (e : E) (kp : KeyProperties)
    (hmem : Event.write e kp ∈ (editPair env o schema ed r w).events) : e = ed := by
  rcases hc : (askAll env schema r (DataToEdit o r) [] w).res with ⟨m, _ | err⟩
  · obtain ⟨n, hn⟩ := writeAll_take env ed r.ExternalSecret.Name
      (env.mapOrder (askAll env schema r (DataToEdit o r) [] w).world m)
      (askAll env schema r (DataToEdit o r) [] w).world
    simp only [editPair, hc, hn, List.mem_append, List.mem_map] at hmem
    rcases hmem with h | ⟨x, _, hx⟩
    · have h1 := mem_writesOf e kp _ h
      rw [askAll_writes] at h1
      cases h1
    · cases hx
      rfl
  · simp only [editPair, hc] at hmem
    have h1 := mem_writesOf e kp _ hmem
    rw [askAll_writes] at h1
    cases h1

/-- C4. When the body of edit `Run` for an in-scope descriptor succeeds, every candidate
entry got a value, the keys of the `Write` calls are pairwise distinct and are exactly
the keys of the candidate entries, each written `KeyProperties` holds one pair per
candidate entry of its key, in candidate order, with the value resolved for that entry,
and every call goes to the descriptor's editor; in the loop of `Run` these are the calls
made for the descriptor. -/
theorem C4_edit_one_write_per_key {W E : Type} (env : Env W E) (o : edit.Options)
    (schema : Option Schema) (ed : E) (r : SecretPair) (w : W)
    (hperm : ∀ w1 m, (env.mapOrder w1 m).Perm m)
    (hok : (editPair env o schema ed r w).res = none) :
    (∃ values, resolvedValues env schema r (DataToEdit o r) w = some values ∧
      values.length = (DataToEdit o r).length ∧
      ((writesOf (editPair env o schema ed r w).events).map KeyProperties.Key).Nodup ∧
      (∀ k, k ∈ (writesOf (editPair env o schema ed r w).events).map KeyProperties.Key ↔
        k ∈ (DataToEdit o r).map Data.Key) ∧
      (∀ kp ∈ writesOf (editPair env o schema ed r w).events,
        kp.Properties = batchFor kp.Key (DataToEdit o r) values)) ∧
    (∀ e kp, Event.write e kp ∈ (editPair env o schema ed r w).events → e = ed) ∧
    (∀ rs editors editors1, obtainEditor env editors r = Except.ok (ed, editors1) →
      Matches env o r = true →
      ∃ rest, (editLoop env o schema (r :: rs) editors w).events =
        (editPair env o schema ed r w).events ++ rest) := by
  refine ⟨editPair_ok env o schema ed r w hperm hok, ?_, ?_⟩
  · intro e kp hmem
    exact editPair_editor env o schema ed r w e kp hmem
  · intro rs editors editors1 hed hm
    simp only [editLoop, hed, hm, if_true, hok]
    exact ⟨_, rfl⟩

/-- Editing the fixture descriptor writes `tls` and `creds` once each, the two entries of
`creds` in one batch. -/
theorem C4_edit_one_write_per_key_witness :
    (∀ (w1 : Nat) (m : List KeyProperties), (demoEnv.mapOrder w1 m).Perm m) ∧
    (editPair demoEnv ⟨".", ""⟩ none 0 demoPair 0).res = none ∧
    (∀ k, k ∈ (writesOf (editPair demoEnv ⟨".", ""⟩ none 0 demoPair 0).events).map
        KeyProperties.Key ↔ k ∈ (DataToEdit ⟨".", ""⟩ demoPair).map Data.Key) ∧
    writesOf (editPair demoEnv ⟨".", ""⟩ none 0 demoPair 0).events =
      [⟨"tls", [⟨"cert", "s3cret"⟩]⟩,
        ⟨"creds", [⟨"username", "s3cret"⟩, ⟨"password", "s3cret"⟩]⟩] :=
  ⟨fun _ m => List.reverse_perm m, by decide,
    (C4_edit_one_write_per_key demoEnv ⟨".", ""⟩ none 0 demoPair 0
      (fun _ m => List.reverse_perm m) (by decide)).1.elim
      (fun _ h => h.2.2.2.1),
    by decide⟩

/-! ## C10: the confirm kind in edit -/

theorem askForSecretValue_confirm {W E : Type} (env : Env W E) (schema : Option Schema)
    (r : SecretPair) (d : Data) (object : Option Object) (ps : Property)
    (hl : env.FindObjectProperty schema r.ExternalSecret.Name d.Property = (object, some ps, none))
    (hk : labelLookup ps.Labels env.LabelKind = "confirm") (w : W) :
    (askForSecretValue env schema r d w).res = ("", none) ∧
    (askForSecretValue env schema r d w).events = [] ∧
    (askForSecretValue env schema r d w).world = w := by
  simp [askForSecretValue, hl, hk]

theorem batchFor_blank {W E : Type} (env : Env W E) (schema : Option Schema) (r : SecretPair)
    (d : Data) (hd : ∀ w, (askForSecretValue env schema r d w).res = ("", none)) :
    ∀ (ds : List Data) (w : W) (values : List String),
      resolvedValues env schema r ds w = some values → d ∈ ds →
      (⟨d.Property, ""⟩ : PropertyValue) ∈ batchFor d.Key ds values := by
  intro ds
  induction ds with
  | nil => intro w values _ hm; cases hm
  | cons d0 ds ih =>
    intro w values hv hm
    rcases ha : (askForSecretValue env schema r d0 w).res with ⟨v, _ | err⟩
    · simp only [resolvedValues, ha, Option.map_eq_some'] at hv
      obtain ⟨vs, hvs, rfl⟩ := hv
      rw [batchFor_cons, List.mem_append]
      rcases List.mem_cons.mp hm with rfl | hm
      · left
        have := hd w
        rw [ha] at this
        simp only [Prod.mk.injEq, and_true] at this
        simp [this]
      · exact Or.inr (ih _ vs hvs hm)
    · simp [resolvedValues, ha] at hv

/-- C10. For a candidate entry whose property specification exists: with the kind label
`confirm`, `askForSecretValue` makes no call and returns the empty string without
error, the loop of `Run` goes on with the pair of the property and the empty string
appended under the entry's key, and a successful run of the descriptor writes that
blank pair under the key; with any other kind label, or none, the result is what the
masked prompt returns for the specification's question and help, and that value is the
one appended. -/
theorem C10_confirm_writes_blank {W E : Type} (env : Env W E) (o : edit.Options)
    (schema : Option Schema) (ed : E) (r : SecretPair) (d : Data) (w : W)
    (object : Option Object) (ps : Property)
    (hl : env.FindObjectProperty schema r.ExternalSecret.Name d.Property
      = (object, some ps, none)) :
    (labelLookup ps.Labels env.LabelKind = "confirm" →
      ((askForSecretValue env schema r d w).res = ("", none) ∧
        (askForSecretValue env schema r d w).events = [] ∧
        (askForSecretValue env schema r d w).world = w) ∧
      (∀ ds m, askAll env schema r (d :: ds) m w =
        askAll env schema r ds (appendProperty (ensureKey m d.Key) d.Key ⟨d.Property, ""⟩) w) ∧
      ((∀ w1 m, (env.mapOrder w1 m).Perm m) → d ∈ DataToEdit o r →
        (editPair env o schema ed r w).res = none →
        ∃ kp ∈ writesOf (editPair env o schema ed r w).events,
          kp.Key = d.Key ∧ (⟨d.Property, ""⟩ : PropertyValue) ∈ kp.Properties)) ∧
    (labelLookup ps.Labels env.LabelKind ≠ "confirm" →
      ((askForSecretValue env schema r d w).res = (env.PickPassword ps.Question ps.Help w).1 ∧
        (askForSecretValue env schema r d w).events = [Event.prompt ps.Question ps.Help] ∧
        (askForSecretValue env schema r d w).world = (env.PickPassword ps.Question ps.Help w).2) ∧
      (∀ value ds m, (env.PickPassword ps.Question ps.Help w).1 = (value, none) →
        (askAll env schema r (d :: ds) m w).res =
          (askAll env schema r ds
            (appendProperty (ensureKey m d.Key) d.Key ⟨d.Property, value⟩)
            (env.PickPassword ps.Question ps.Help w).2).res)) := by
  constructor
  · intro hk
    have hask := askForSecretValue_confirm env schema r d object ps hl hk
    refine ⟨hask w, ?_, ?_⟩
    · intro ds m
      obtain ⟨h1, h2, h3⟩ := hask w
      simp only [askAll, h1, h2, h3, List.nil_append]
    · intro hperm hmem hok
      obtain ⟨values, hv, _, _, hkeys, hprops⟩ := editPair_ok env o schema ed r w hperm hok
      have hkey : d.Key ∈ (writesOf (editPair env o schema ed r w).events).map
          KeyProperties.Key := (hkeys d.Key).mpr (List.mem_map_of_mem _ hmem)
      obtain ⟨kp, hkp, hkk⟩ := List.mem_map.mp hkey
      refine ⟨kp, hkp, hkk, ?_⟩
      rw [hprops kp hkp, hkk]
      exact batchFor_blank env schema r d (fun w1 => (hask w1).1) _ w values hv hmem
  · intro hk
    have hres : (askForSecretValue env schema r d w).res
          = (env.PickPassword ps.Question ps.Help w).1 ∧
        (askForSecretValue env schema r d w).events = [Event.prompt ps.Question ps.Help] ∧
        (askForSecretValue env schema r d w).world
          = (env.PickPassword ps.Question ps.Help w).2 := by
      simp [askForSecretValue, hl, hk]
    refine ⟨hres, ?_⟩
    intro value ds m hv
    obtain ⟨h1, _, h3⟩ := hres
    rw [hv] at h1
    simp only [askAll, h1, h3]

/-- The property `approve` of kind `confirm` is written with a blank value and no prompt. -/
theorem C10_confirm_writes_blank_witness :
    schemaEnv.FindObjectProperty none "db-creds" "approve"
      = (none, some (demoProperty "approve" "" "" "confirm"), none) ∧
    labelLookup (demoProperty "approve" "" "" "confirm").Labels schemaEnv.LabelKind = "confirm" ∧
    (askForSecretValue schemaEnv none ⟨⟨"db-creds", "vault", [⟨"creds", "approve"⟩]⟩, none⟩
        ⟨"creds", "approve"⟩ 0).res = ("", none) ∧
    writesOf (editPair schemaEnv ⟨".", "db"⟩ none 0
        ⟨⟨"db-creds", "vault", [⟨"creds", "approve"⟩]⟩, none⟩ 0).events
      = [⟨"creds", [⟨"approve", ""⟩]⟩] :=
  ⟨by decide, by decide,
    ((C10_confirm_writes_blank schemaEnv ⟨".", "db"⟩ none 0
      ⟨⟨"db-creds", "vault", [⟨"creds", "approve"⟩]⟩, none⟩ ⟨"creds", "approve"⟩ 0 none
      (demoProperty "approve" "" "" "confirm") (by decide)).1 (by decide)).1.1,
    by decide⟩

/-! ## C8: the readiness gate -/

/-- C8. The gate `waitForBackend` returns success at once, with no probe and the world
untouched, for every backend type other than `vault`, and for `vault` when `NoWait` is
set; for `vault` with `NoWait` unset it runs the probe once with the configured
duration and succeeds iff the probe does; the probe runs in no other case. -/
theorem C8_waitForBackend_gate {W E : Type} (env : Env W E) (o : populate.Options W)
    (backendType : String) (w : W) :
    (backendType ≠ "vault" →
      (waitForBackend env o backendType w : Out W E (Option Error)).res = none ∧
      (waitForBackend env o backendType w : Out W E (Option Error)).events = [] ∧
      (waitForBackend env o backendType w : Out W E (Option Error)).world = w) ∧
    (backendType = "vault" → o.NoWait = true →
      (waitForBackend env o backendType w : Out W E (Option Error)).res = none ∧
      (waitForBackend env o backendType w : Out W E (Option Error)).events = [] ∧
      (waitForBackend env o backendType w : Out W E (Option Error)).world = w) ∧
    (backendType = "vault" → o.NoWait = false →
      (waitForBackend env o backendType w).events = [Event.probe o.WaitDuration] ∧
      (waitForBackend env o backendType w).world = (env.waitRun o.WaitDuration w).2 ∧
      ((waitForBackend env o backendType w).res = none ↔
        (env.waitRun o.WaitDuration w).1 = none)) ∧
    ((waitForBackend env o backendType w).events ≠ [] →
      backendType = "vault" ∧ o.NoWait = false) := by
  refine ⟨?_, ?_, ?_, ?_⟩
  · intro h
    simp [waitForBackend, h]
  · intro h hn
    simp [waitForBackend, h, hn]
  · intro h hn
    rcases hw : env.waitRun o.WaitDuration w with ⟨_ | err, w1⟩ <;>
      simp [waitForBackend, h, hn, hw]
  · intro hev
    by_cases h : backendType = "vault"
    · refine ⟨h, ?_⟩
      cases hn : o.NoWait with
      | false => rfl
      | true => simp [waitForBackend, h, hn] at hev
    · simp [waitForBackend, h] at hev

/-- The gate is a no-op for the backend type `gcpSecretsManager`. -/
theorem C8_waitForBackend_gate_witness :
    "gcpSecretsManager" ≠ "vault" ∧
    (waitForBackend demoEnv demoPopulate "gcpSecretsManager" 0).res = none ∧
    (waitForBackend demoEnv demoPopulate "gcpSecretsManager" 0).events = [] ∧
    (waitForBackend demoEnv demoPopulate "gcpSecretsManager" 0).world = 0 :=
  ⟨by decide, (C8_waitForBackend_gate demoEnv demoPopulate "gcpSecretsManager" 0).1 (by decide)⟩

/-! ## C7: unsupported backend types -/

theorem NewEditor_unsupported {W E : Type} (env : Env W E) (secret : ExternalSecret)
    (hv : secret.BackendType ≠ "vault") (hg : secret.BackendType ≠ "gcpSecretsManager") :
    NewEditor env secret =
      Except.error ⟨"unsupported ExternalSecret back end " ++ secret.BackendType⟩ := by
  simp [NewEditor, hv, hg]

theorem obtainEditor_supported {W E : Type} (env : Env W E) (editors editors1 : String → Option E)
    (r : SecretPair) (ed : E)
    (hs : ∀ bt, editors bt ≠ none → bt = "vault" ∨ bt = "gcpSecretsManager")
    (h : obtainEditor env editors r = Except.ok (ed, editors1)) :
    ∀ bt, editors1 bt ≠ none → bt = "vault" ∨ bt = "gcpSecretsManager" := by
  unfold obtainEditor at h
  cases hc : editors r.ExternalSecret.BackendType with
  | some e0 =>
    simp only [hc, Except.ok.injEq, Prod.mk.injEq] at h
    rw [← h.2]
    exact hs
  | none =>
    simp only [hc] at h
    cases hn : NewEditor env r.ExternalSecret with
    | error err => simp [hn] at h
    | ok e1 =>
      simp only [hn, Except.ok.injEq, Prod.mk.injEq] at h
      intro bt hbt
      rw [← h.2] at hbt
      by_cases hb : bt = r.ExternalSecret.BackendType
      · by_cases hv : r.ExternalSecret.BackendType = "vault"
        · exact Or.inl (hb.trans hv)
        · by_cases hg : r.ExternalSecret.BackendType = "gcpSecretsManager"
          · exact Or.inr (hb.trans hg)
          · rw [NewEditor_unsupported env _ hv hg] at hn
            cases hn
      · simp only [hb, if_false] at hbt
        exact hs bt hbt

theorem obtainEditor_unsupported {W E : Type} (env : Env W E) (editors : String → Option E)
    (r : SecretPair)
    (hs : ∀ bt, editors bt ≠ none → bt = "vault" ∨ bt = "gcpSecretsManager")
    (hv : r.ExternalSecret.BackendType ≠ "vault")
    (hg : r.ExternalSecret.BackendType ≠ "gcpSecretsManager") :
    ∃ err, obtainEditor env editors r = Except.error err := by
  have hc : editors r.ExternalSecret.BackendType = none := by
    by_contra hne
    rcases hs _ hne with h | h
    · exact hv h
    · exact hg h
  simp [obtainEditor, hc, NewEditor_unsupported env _ hv hg]

theorem editLoop_stops {W E : Type} (env : Env W E) (o : edit.Options) (schema : Option Schema)
    (r : SecretPair) (post : List SecretPair)
    (hv : r.ExternalSecret.BackendType ≠ "vault")
    (hg : r.ExternalSecret.BackendType ≠ "gcpSecretsManager") :
    ∀ (pre : List SecretPair) (editors : String → Option E) (w : W),
      (∀ bt, editors bt ≠ none → bt = "vault" ∨ bt = "gcpSecretsManager") →
      (editLoop env o schema (pre ++ r :: post) editors w).res ≠ none ∧
      (editLoop env o schema (pre ++ r :: post) editors w).events =
        (editLoop env o schema pre editors w).events ∧
      (editLoop env o schema (pre ++ r :: post) editors w).world =
        (editLoop env o schema pre editors w).world := by
  intro pre
  induction pre with
  | nil =>
    intro editors w hs
    obtain ⟨err, he⟩ := obtainEditor_unsupported env editors r hs hv hg
    simp [editLoop, he]
  | cons r0 pre ih =>
    intro editors w hs
    cases he : obtainEditor env editors r0 with
    | error err => simp [editLoop, he]
    | ok p =>
      obtain ⟨ed, editors1⟩ := p
      have hs1 := obtainEditor_supported env editors editors1 r0 ed hs he
      by_cases hm : Matches env o r0 = true
      · cases hp : (editPair env o schema ed r0 w).res with
        | some err => simp [editLoop, he, hm, hp]
        | none =>
          obtain ⟨h1, h2, h3⟩ := ih editors1 (editPair env o schema ed r0 w).world hs1
          simp only [List.cons_append, editLoop, he, hm, if_true, hp]
          exact ⟨h1, congrArg (fun t => (editPair env o schema ed r0 w).events ++ t) h2, h3⟩
      · simp only [List.cons_append, editLoop, he, hm]
        exact ih editors1 w hs1

theorem populateLoop_stops {W E : Type} (env : Env W E) (o : populate.Options W)
    (gens : String → Option (Generator W)) (schema : Option Schema)
    (r : SecretPair) (post : List SecretPair)
    (hv : r.ExternalSecret.BackendType ≠ "vault")
    (hg : r.ExternalSecret.BackendType ≠ "gcpSecretsManager") :
    ∀ (pre : List SecretPair) (waited : String → Bool) (editors : String → Option E) (w : W),
      (∀ bt, editors bt ≠ none → bt = "vault" ∨ bt = "gcpSecretsManager") →
      (populateLoop env o gens schema (pre ++ r :: post) waited editors w).res ≠ none ∧
      (populateLoop env o gens schema (pre ++ r :: post) waited editors w).events =
        (populateLoop env o gens schema pre waited editors w).events ∧
      (populateLoop env o gens schema (pre ++ r :: post) waited editors w).world =
        (populateLoop env o gens schema pre waited editors w).world := by
  intro pre
  induction pre with
  | nil =>
    intro waited editors w hs
    obtain ⟨err, he⟩ := obtainEditor_unsupported env editors r hs hv hg
    have hw : (waitForBackend env o r.ExternalSecret.BackendType w : Out W E (Option Error))
        = ⟨none, [], w⟩ := by
      simp [waitForBackend, hv]
    cases hwd : waited r.ExternalSecret.BackendType <;>
      simp [populateLoop, he, hw, hwd]
  | cons r0 pre ih =>
    intro waited editors w hs
    simp only [List.cons_append, populateLoop]
    generalize (if (!waited r0.ExternalSecret.BackendType) = true
      then waitForBackend env o r0.ExternalSecret.BackendType w
      else (⟨none, [], w⟩ : Out W E (Option Error))) = wt
    cases hwt : wt.res with
    | some err => simp
    | none =>
      simp only
      cases he : obtainEditor env editors r0 with
      | error err => simp
      | ok p =>
        obtain ⟨ed, editors1⟩ := p
        have hs1 := obtainEditor_supported env editors editors1 r0 ed hs he
        simp only
        cases hp : (populatePair env gens schema ed r0 wt.world).res with
        | some err => simp
        | none =>
          obtain ⟨h1, h2, h3⟩ := ih
            (fun k => if k = r0.ExternalSecret.BackendType then true else waited k)
            editors1 (populatePair env gens schema ed r0 wt.world).world hs1
          simp only
          exact ⟨h1, congrArg (fun t => wt.events ++
            ((populatePair env gens schema ed r0 wt.world).events ++ t)) h2, h3⟩

/-- C7. For a backend type other than `vault` and `gcpSecretsManager` the factory
`NewEditor` returns an error and no editor; and a run of edit or of populate whose
verification results hold a descriptor of such a type returns an error, having made
exactly the calls of the run over the descriptors before it: no prompt, `Write`, generator
call or probe is made for that descriptor or any later one. -/
theorem C7_unsupported_backend_stops {W E : Type} (env : Env W E) (r : SecretPair)
    (hv : r.ExternalSecret.BackendType ≠ "vault")
    (hg : r.ExternalSecret.BackendType ≠ "gcpSecretsManager") :
    (∃ err, NewEditor env r.ExternalSecret = Except.error err) ∧
    (∀ (o : edit.Options) (pre post : List SecretPair) (w : W),
      (edit.Run env o (pre ++ r :: post, none) w).res ≠ none ∧
      (edit.Run env o (pre ++ r :: post, none) w).events = (edit.Run env o (pre, none) w).events) ∧
    (∀ (o : populate.Options W) (pre post : List SecretPair) (w : W),
      (populate.Run env o (pre ++ r :: post, none) w).res ≠ none ∧
      (populate.Run env o (pre ++ r :: post, none) w).events =
        (populate.Run env o (pre, none) w).events) := by
  refine ⟨⟨_, NewEditor_unsupported env _ hv hg⟩, ?_, ?_⟩
  · intro o pre post w
    have hlen : ¬ (pre ++ r :: post).length = 0 := by simp
    rcases hl : env.LoadSchema o.Dir with ⟨schema, _ | err⟩
    · obtain ⟨h1, h2, _⟩ := editLoop_stops env o schema r post hv hg pre (fun _ => none) w
        (by intro bt h; exact absurd rfl h)
      simp only [edit.Run, hlen, if_false, hl]
      refine ⟨h1, ?_⟩
      rw [h2]
      cases pre with
      | nil => simp [editLoop]
      | cons r0 pre => simp
    · simp only [edit.Run, hlen, if_false, hl]
      refine ⟨by simp, ?_⟩
      by_cases hp : pre.length = 0 <;> simp [hp]
  · intro o pre post w
    have hlen : ¬ (pre ++ r :: post).length = 0 := by simp
    rcases hl : env.LoadSchema o.Dir with ⟨schema, _ | err⟩
    · obtain ⟨h1, h2, _⟩ := populateLoop_stops env o (loadGenerators env o) schema r post hv hg
        pre (fun _ => false) (fun _ => none) w (by intro bt h; exact absurd rfl h)
      simp only [populate.Run, hlen, if_false, hl]
      refine ⟨h1, ?_⟩
      rw [h2]
      cases pre with
      | nil => simp [populateLoop]
      | cons r0 pre => simp
    · simp only [populate.Run, hlen, if_false, hl]
      refine ⟨by simp, ?_⟩
      by_cases hp : pre.length = 0 <;> simp [hp]

/-- A run of edit over three descriptors, the second of backend type `unknown`, fails and
makes the calls of the run over the first alone. -/
theorem C7_unsupported_backend_stops_witness :
    "unknown" ≠ "vault" ∧ "unknown" ≠ "gcpSecretsManager" ∧
    (edit.Run demoEnv ⟨".", ""⟩
      ([demoPair, ⟨⟨"legacy", "unknown", [⟨"k", "p"⟩]⟩, some ⟨[⟨"k", ["p"]⟩]⟩⟩, demoPair], none)
      0).res ≠ none ∧
    (edit.Run demoEnv ⟨".", ""⟩
      ([demoPair, ⟨⟨"legacy", "unknown", [⟨"k", "p"⟩]⟩, some ⟨[⟨"k", ["p"]⟩]⟩⟩, demoPair], none)
      0).events = (edit.Run demoEnv ⟨".", ""⟩ ([demoPair], none) 0).events :=
  ⟨by decide, by decide,
    (C7_unsupported_backend_stops demoEnv
      ⟨⟨"legacy", "unknown", [⟨"k", "p"⟩]⟩, some ⟨[⟨"k", ["p"]⟩]⟩⟩ (by decide) (by decide)).2.1
      ⟨".", ""⟩ [demoPair] [demoPair] 0⟩

/-! ## Lemmas: the loops of populate Run -/

theorem generateSecretValue_events {W E : Type} (env : Env W E)
    (gens : String → Option (Generator W)) (schema : Option Schema)
    (secretName property : String) (e : EntryError) (w : W) :
    (generateSecretValue env gens schema secretName property e w).events = [] ∨
      ∃ name args, (generateSecretValue env gens schema secretName property e w).events
        = [Event.generate name args] := by
  rcases hl : env.FindObjectProperty schema secretName property with ⟨object, ps, lerr⟩
  cases lerr with
  | some le => exact Or.inl (by simp [generateSecretValue, hl])
  | none =>
    cases ps with
    | none => exact Or.inl (by simp [generateSecretValue, hl])
    | some ps =>
      by_cases hd : ps.DefaultValue = ""
      · by_cases hg : ps.Generator = ""
        · exact Or.inl (by simp [generateSecretValue, hl, hd, hg])
        · cases hs : gens ps.Generator with
          | none => exact Or.inl (by simp [generateSecretValue, hl, hd, hg, hs])
          | some generator =>
            rcases hgen : generator ⟨schema, object, ps⟩ w with ⟨⟨value, err⟩, w1⟩
            cases err <;>
              exact Or.inr ⟨ps.Generator, ⟨schema, object, ps⟩,
                by simp [generateSecretValue, hl, hd, hg, hs, hgen]⟩
      · exact Or.inl (by simp [generateSecretValue, hl, hd])

theorem writesOf_generateSecretValue {W E : Type} (env : Env W E)
    (gens : String → Option (Generator W)) (schema : Option Schema)
    (secretName property : String) (e : EntryError) (w : W) :
    writesOf (generateSecretValue env gens schema secretName property e w).events = [] := by
  rcases generateSecretValue_events env gens schema secretName property e w with
    h | ⟨n, a, h⟩ <;> rw [h] <;> rfl

theorem populateBatch_cons (property : String) (ps : List String) (v : String)
    (vs : List String) :
    populateBatch (property :: ps) (v :: vs) =
      (if v = "" then [] else [⟨property, v⟩]) ++ populateBatch ps vs := by
  unfold populateBatch
  by_cases h : v = "" <;> simp [List.filter_cons, h]

theorem populateProperties_writes {W E : Type} (env : Env W E)
    (gens : String → Option (Generator W)) (schema : Option Schema) (name : String)
    (e : EntryError) :
    ∀ (ps : List String) (acc : List PropertyValue) (w : W),
      writesOf (populateProperties env gens schema name e ps acc w).events = [] := by
  intro ps
  induction ps with
  | nil => intro acc w; rfl
  | cons property ps ih =>
    intro acc w
    rcases hg : (generateSecretValue env gens schema name property e w).res with ⟨v, _ | err⟩
    · simp only [populateProperties, hg, writesOf_append, ih, List.append_nil]
      exact writesOf_generateSecretValue env gens schema name property e w
    · simp only [populateProperties, hg]
      exact writesOf_generateSecretValue env gens schema name property e w

theorem populateProperties_ok {W E : Type} (env : Env W E)
    (gens : String → Option (Generator W)) (schema : Option Schema) (name : String)
    (e : EntryError) :
    ∀ (ps : List String) (acc : List PropertyValue) (w : W),
      (populateProperties env gens schema name e ps acc w).res.2 = none →
      ∃ values, generatedValues env gens schema name e ps w = some values ∧
        values.length = ps.length ∧
        (populateProperties env gens schema name e ps acc w).res.1 =
          acc ++ populateBatch ps values := by
  intro ps
  induction ps with
  | nil =>
    intro acc w _
    exact ⟨[], rfl, rfl, by simp [populateProperties, populateBatch]⟩
  | cons property ps ih =>
    intro acc w hok
    rcases hg : (generateSecretValue env gens schema name property e w).res with ⟨v, _ | err⟩
    · simp only [populateProperties, hg] at hok ⊢
      obtain ⟨vs, hvs, hlen, hres⟩ := ih _ _ hok
      refine ⟨v :: vs, by simp [generatedValues, hg, hvs], by simp [hlen], ?_⟩
      rw [hres, populateBatch_cons]
      by_cases hv : v = "" <;> simp [hv]
    · simp [populateProperties, hg] at hok

theorem populateBatch_values (ps : List String) (values : List String) :
    ∀ pv ∈ populateBatch ps values, pv.Value ≠ "" := by
  intro pv hpv
  unfold populateBatch at hpv
  simp only [List.mem_map, List.mem_filter, decide_eq_true_eq] at hpv
  obtain ⟨p, ⟨_, hne⟩, rfl⟩ := hpv
  exact hne

theorem populateEntries_sound {W E : Type} (env : Env W E)
    (gens : String → Option (Generator W)) (schema : Option Schema) (ed : E) (name : String) :
    ∀ (es : List EntryError) (w : W),
      ∀ kp ∈ writesOf (populateEntries env gens schema ed name es w).events,
        kp.Properties ≠ [] ∧ ∀ pv ∈ kp.Properties, pv.Value ≠ "" := by
  intro es
  induction es with
  | nil => intro w kp h; cases h
  | cons e es ih =>
    intro w kp hkp
    rcases hp : (populateProperties env gens schema name e e.Properties [] w).res with
      ⟨props, _ | err⟩
    · have hp2 : (populateProperties env gens schema name e e.Properties [] w).res.2 = none := by
        rw [hp]
      obtain ⟨values, _, _, hres⟩ := populateProperties_ok env gens schema name e _ _ _ hp2
      rw [hp] at hres
      simp only [List.nil_append] at hres
      by_cases hlen : props.length > 0
      · rcases hw : env.Write ed ⟨e.Key, props⟩
            (populateProperties env gens schema name e e.Properties [] w).world with
          ⟨_ | err, w1⟩
        · simp only [populateEntries, hp, hlen, if_true, hw, writesOf_append,
            populateProperties_writes, List.nil_append, writesOf, List.mem_cons] at hkp
          rcases hkp with rfl | hkp
          · refine ⟨List.ne_nil_of_length_pos hlen, ?_⟩
            simp only
            rw [hres]
            exact populateBatch_values _ _
          · exact ih _ kp hkp
        · simp only [populateEntries, hp, hlen, if_true, hw, writesOf_append,
            populateProperties_writes, List.nil_append, writesOf, List.mem_singleton] at hkp
          rw [hkp]
          refine ⟨List.ne_nil_of_length_pos hlen, ?_⟩
          simp only
          rw [hres]
          exact populateBatch_values _ _
      · simp only [populateEntries, hp, hlen, if_false, writesOf_append,
          populateProperties_writes, List.nil_append] at hkp
        exact ih _ kp hkp
    · simp only [populateEntries, hp, populateProperties_writes] at hkp
      cases hkp

theorem writesOf_waitForBackend {W E : Type} (env : Env W E) (o : populate.Options W)
    (backendType : String) (w : W) :
    writesOf (waitForBackend env o backendType w : Out W E (Option Error)).events = [] := by
  unfold waitForBackend
  by_cases h : backendType = "vault"
  · cases hn : o.NoWait with
    | true => simp [h, writesOf]
    | false =>
      rcases hw : env.waitRun o.WaitDuration w with ⟨_ | err, w1⟩ <;> simp [h, hw, writesOf]
  · simp [h, writesOf]

theorem populatePair_sound {W E : Type} (env : Env W E)
    (gens : String → Option (Generator W)) (schema : Option Schema) (ed : E) (r : SecretPair)
    (w : W) :
    ∀ kp ∈ writesOf (populatePair env gens schema ed r w).events,
      kp.Properties ≠ [] ∧ ∀ pv ∈ kp.Properties, pv.Value ≠ "" := by
  intro kp hkp
  unfold populatePair at hkp
  cases he : r.Error with
  | none =>
    simp only [he, writesOf] at hkp
    cases hkp
  | some err =>
    simp only [he] at hkp
    exact populateEntries_sound env gens schema ed _ _ _ kp hkp

theorem populateLoop_sound {W E : Type} (env : Env W E) (o : populate.Options W)
    (gens : String → Option (Generator W)) (schema : Option Schema) :
    ∀ (rs : List SecretPair) (waited : String → Bool) (editors : String → Option E) (w : W),
      ∀ kp ∈ writesOf (populateLoop env o gens schema rs waited editors w).events,
        kp.Properties ≠ [] ∧ ∀ pv ∈ kp.Properties, pv.Value ≠ "" := by
  intro rs
  induction rs with
  | nil => intro waited editors w kp h; cases h
  | cons r rs ih =>
    intro waited editors w kp hkp
    simp only [populateLoop] at hkp
    have hwt : writesOf (if (!waited r.ExternalSecret.BackendType) = true
        then waitForBackend env o r.ExternalSecret.BackendType w
        else (⟨none, [], w⟩ : Out W E (Option Error))).events = [] := by
      split
      · exact writesOf_waitForBackend env o _ w
      · rfl
    revert hkp hwt
    generalize (if (!waited r.ExternalSecret.BackendType) = true
      then waitForBackend env o r.ExternalSecret.BackendType w
      else (⟨none, [], w⟩ : Out W E (Option Error))) = wt
    intro hkp hwt
    cases hres : wt.res with
    | some err =>
      simp only [hres, hwt] at hkp
      cases hkp
    | none =>
      simp only [hres] at hkp
      cases he : obtainEditor env editors r with
      | error err =>
        simp only [he, hwt] at hkp
        cases hkp
      | ok p =>
        obtain ⟨ed, editors1⟩ := p
        simp only [he] at hkp
        cases hp : (populatePair env gens schema ed r wt.world).res with
        | some err =>
          simp only [hp, writesOf_append, hwt, List.nil_append] at hkp
          exact populatePair_sound env gens schema ed r _ kp hkp
        | none =>
          simp only [hp, writesOf_append, hwt, List.nil_append, List.mem_append] at hkp
          rcases hkp with h | h
          · exact populatePair_sound env gens schema ed r _ kp h
          · exact ih _ _ _ kp h

theorem batchFor_ne_nil (k : String) :
    ∀ (ds : List Data) (values : List String), values.length = ds.length →
      k ∈ ds.map Data.Key → batchFor k ds values ≠ [] := by
  intro ds
  induction ds with
  | nil => intro values _ hk; cases hk
  | cons d ds ih =>
    intro values hlen hk
    cases values with
    | nil => simp at hlen
    | cons v vs =>
      rw [batchFor_cons]
      by_cases hd : d.Key = k
      · simp [hd]
      · simp only [hd, if_false, List.nil_append]
        apply ih vs (by simpa using hlen)
        simp only [List.map_cons, List.mem_cons] at hk
        rcases hk with h | h
        · exact absurd h.symm hd
        · exact h

theorem editPair_nonempty {W E : Type} (env : Env W E) (o : edit.Options)
    (schema : Option Schema) (ed : E) (r : SecretPair) (w : W)
    (hperm : ∀ w1 m, (env.mapOrder w1 m).Perm m) :
    ∀ kp ∈ writesOf (editPair env o schema ed r w).events, kp.Properties ≠ [] := by
  intro kp hkp
  rcases hc : (askAll env schema r (DataToEdit o r) [] w).res with ⟨m, _ | err⟩
  · have hc2 : (askAll env schema r (DataToEdit o r) [] w).res.2 = none := by rw [hc]
    obtain ⟨values, _, hlen, hprops, hkeys, hnd, _⟩ :=
      askAll_ok env schema r (DataToEdit o r) [] w hc2
    rw [hc] at hprops hkeys hnd
    simp only [List.map_nil, List.not_mem_nil, false_or, List.nodup_nil, forall_true_left]
      at hkeys hnd
    obtain ⟨n, hn⟩ := writeAll_take env ed r.ExternalSecret.Name
      (env.mapOrder (askAll env schema r (DataToEdit o r) [] w).world m)
      (askAll env schema r (DataToEdit o r) [] w).world
    simp only [editPair, hc, writesOf_append, askAll_writes, List.nil_append, hn,
      writesOf_map_write] at hkp
    have hm : kp ∈ m := (hperm _ m).mem_iff.mp (List.mem_of_mem_take hkp)
    have h1 := propertiesAt_of_mem m hnd kp hm
    have h2 := hprops kp.Key
    simp only [propertiesAt, lookupKey, List.find?_nil, List.nil_append] at h2
    simp only [propertiesAt, lookupKey] at h1
    rw [← h1, h2]
    exact batchFor_ne_nil kp.Key _ values hlen ((hkeys kp.Key).mp (List.mem_map_of_mem _ hm))
  · simp only [editPair, hc, askAll_writes] at hkp
    cases hkp

theorem editLoop_nonempty {W E : Type} (env : Env W E) (o : edit.Options)
    (schema : Option Schema) (hperm : ∀ w1 m, (env.mapOrder w1 m).Perm m) :
    ∀ (rs : List SecretPair) (editors : String → Option E) (w : W),
      ∀ kp ∈ writesOf (editLoop env o schema rs editors w).events, kp.Properties ≠ [] := by
  intro rs
  induction rs with
  | nil => intro editors w kp h; cases h
  | cons r rs ih =>
    intro editors w kp hkp
    cases he : obtainEditor env editors r with
    | error err =>
      simp only [editLoop, he, writesOf] at hkp
      cases hkp
    | ok p =>
      obtain ⟨ed, editors1⟩ := p
      by_cases hm : Matches env o r = true
      · cases hp : (editPair env o schema ed r w).res with
        | some err =>
          simp only [editLoop, he, hm, if_true, hp] at hkp
          exact editPair_nonempty env o schema ed r w hperm kp hkp
        | none =>
          simp only [editLoop, he, hm, if_true, hp, writesOf_append, List.mem_append] at hkp
          rcases hkp with h | h
          · exact editPair_nonempty env o schema ed r w hperm kp h
          · exact ih _ _ kp h
      · simp only [editLoop, he, hm] at hkp
        exact ih _ _ kp hkp

/-! ## C6: no empty batch is written -/

/-- C6. Whatever the verification results, options and world: every `KeyProperties`
that a run of edit passes to `Write` has at least one property, and every
`KeyProperties` that a run of populate passes to `Write` has at least one property and
no property with an empty value. -/
theorem C6_written_batches_nonempty {W E : Type} (env : Env W E)
    (hperm : ∀ w1 m, (env.mapOrder w1 m).Perm m) :
    (∀ (o : edit.Options) (verify : List SecretPair × Option Error) (w : W),
      ∀ kp ∈ writesOf (edit.Run env o verify w).events, kp.Properties ≠ []) ∧
    (∀ (o : populate.Options W) (verify : List SecretPair × Option Error) (w : W),
      ∀ kp ∈ writesOf (populate.Run env o verify w).events,
        kp.Properties ≠ [] ∧ ∀ pv ∈ kp.Properties, pv.Value ≠ "") := by
  constructor
  · intro o verify w kp hkp
    obtain ⟨results, _ | verr⟩ := verify
    · by_cases hlen : results.length = 0
      · simp only [edit.Run, hlen, if_true, writesOf] at hkp
        cases hkp
      · rcases hl : env.LoadSchema o.Dir with ⟨schema, _ | err⟩
        · simp only [edit.Run, hlen, if_false, hl] at hkp
          exact editLoop_nonempty env o schema hperm results _ w kp hkp
        · simp only [edit.Run, hlen, if_false, hl, writesOf] at hkp
          cases hkp
    · simp only [edit.Run, writesOf] at hkp
      cases hkp
  · intro o verify w kp hkp
    obtain ⟨results, _ | verr⟩ := verify
    · by_cases hlen : results.length = 0
      · simp only [populate.Run, hlen, if_true, writesOf] at hkp
        cases hkp
      · rcases hl : env.LoadSchema o.Dir with ⟨schema, _ | err⟩
        · simp only [populate.Run, hlen, if_false, hl] at hkp
          exact populateLoop_sound env o _ schema results _ _ w kp hkp
        · simp only [populate.Run, hlen, if_false, hl, writesOf] at hkp
          cases hkp
    · simp only [populate.Run, writesOf] at hkp
      cases hkp

/-- Populating the fixture descriptor writes only the generated `password` of `creds`; the
blank `username` and the whole key `tls` are dropped. -/
theorem C6_written_batches_nonempty_witness :
    (∀ (w1 : Nat) (m : List KeyProperties), (schemaEnv.mapOrder w1 m).Perm m) ∧
    writesOf (populate.Run schemaEnv demoPopulate ([demoPair], none) 0).events
      = [⟨"creds", [⟨"password", "generated"⟩]⟩] ∧
    (∀ kp ∈ writesOf (populate.Run schemaEnv demoPopulate ([demoPair], none) 0).events,
      kp.Properties ≠ [] ∧ ∀ pv ∈ kp.Properties, pv.Value ≠ "") :=
  ⟨fun _ m => List.reverse_perm m, by decide,
    (C6_written_batches_nonempty schemaEnv (fun _ m => List.reverse_perm m)).2
      demoPopulate ([demoPair], none) 0⟩

/-! ## C5: writes of populate -/

theorem populateEntries_sublist {W E : Type} (env : Env W E)
    (gens : String → Option (Generator W)) (schema : Option Schema) (ed : E) (name : String) :
    ∀ (es : List EntryError) (w : W),
      ((writesOf (populateEntries env gens schema ed name es w).events).map
        KeyProperties.Key).Sublist (es.map EntryError.Key) := by
  intro es
  induction es with
  | nil => intro w; simp [populateEntries, writesOf]
  | cons e es ih =>
    intro w
    rcases hp : (populateProperties env gens schema name e e.Properties [] w).res with
      ⟨props, _ | err⟩
    · by_cases hlen : props.length > 0
      · rcases hw : env.Write ed ⟨e.Key, props⟩
            (populateProperties env gens schema name e e.Properties [] w).world with
          ⟨_ | err, w1⟩
        · simp only [populateEntries, hp, hlen, if_true, hw, writesOf_append,
            populateProperties_writes, List.nil_append, writesOf, List.map_cons]
          exact (ih w1).cons₂ _
        · simp only [populateEntries, hp, hlen, if_true, hw, writesOf_append,
            populateProperties_writes, List.nil_append, writesOf, List.map_cons, List.map_nil]
          exact (List.nil_sublist _).cons₂ _
      · simp only [populateEntries, hp, hlen, if_false, writesOf_append,
          populateProperties_writes, List.nil_append, List.map_cons]
        exact (ih _).cons _
    · simp only [populateEntries, hp, populateProperties_writes, List.map_nil]
      exact List.nil_sublist _

theorem populateProperties_world {W E : Type} (env : Env W E)
    (gens : String → Option (Generator W)) (schema : Option Schema) (name : String)
    (e : EntryError) :
    ∀ (ps : List String) (acc : List PropertyValue) (w : W),
      (populateProperties env gens schema name e ps acc w).res.2 = none →
      (populateProperties env gens schema name e ps acc w).world =
        worldAfterGenerating env gens schema name e ps w := by
  intro ps
  induction ps with
  | nil => intro acc w _; rfl
  | cons property ps ih =>
    intro acc w hok
    rcases hg : (generateSecretValue env gens schema name property e w).res with ⟨v, _ | err⟩
    · simp only [populateProperties, hg] at hok ⊢
      rw [ih _ _ hok]
      rfl
    · simp [populateProperties, hg] at hok

/-- The writes of a successful pass over the entry errors of one descriptor: every entry
error is resolved in the world the run has reached, and the calls are, in reported
order, the non-empty batches of the entry errors under their keys. -/
theorem populateEntries_ok {W E : Type} (env : Env W E)
    (gens : String → Option (Generator W)) (schema : Option Schema) (ed : E) (name : String) :
    ∀ (es : List EntryError) (w : W),
      (populateEntries env gens schema ed name es w).res = none →
      (∀ p ∈ es.zip (entryWorlds env gens schema ed name es w),
        ∃ values, generatedValues env gens schema name p.1 p.1.Properties p.2 = some values ∧
          values.length = p.1.Properties.length ∧
          entryBatch env gens schema name p.1 p.2 = populateBatch p.1.Properties values) ∧
      writesOf (populateEntries env gens schema ed name es w).events =
        ((es.zip (entryWorlds env gens schema ed name es w)).map
          (fun p => (⟨p.1.Key, entryBatch env gens schema name p.1 p.2⟩ : KeyProperties))).filter
          (fun kp => decide (kp.Properties ≠ [])) := by
  intro es
  induction es with
  | nil =>
    intro w _
    refine ⟨?_, rfl⟩
    intro p hp
    cases hp
  | cons e es ih =>
    intro w hok
    rcases hp : (populateProperties env gens schema name e e.Properties [] w).res with
      ⟨props, _ | err⟩
    · have hp2 : (populateProperties env gens schema name e e.Properties [] w).res.2 = none := by
        rw [hp]
      obtain ⟨values, hv, hvl, hres⟩ := populateProperties_ok env gens schema name e _ _ _ hp2
      have hworld := populateProperties_world env gens schema name e _ _ _ hp2
      rw [hp] at hres
      simp only [List.nil_append] at hres
      have hbatch : entryBatch env gens schema name e w = props := by
        simp [entryBatch, hv, hres]
      by_cases hlen : props.length > 0
      · have hne : props ≠ [] := List.ne_nil_of_length_pos hlen
        rcases hw : env.Write ed ⟨e.Key, props⟩
            (populateProperties env gens schema name e e.Properties [] w).world with
          ⟨_ | err, w1⟩
        · simp only [populateEntries, hp, hlen, if_true, hw] at hok
          have hnext : worldAfterEntry env gens schema ed name e w = w1 := by
            simp only [worldAfterEntry, hbatch, hlen, if_true, ← hworld, hw]
          obtain ⟨hall, hws⟩ := ih w1 hok
          have hev : (populateEntries env gens schema ed name (e :: es) w).events =
              (populateProperties env gens schema name e e.Properties [] w).events ++
                Event.write ed ⟨e.Key, props⟩ ::
                  (populateEntries env gens schema ed name es w1).events := by
            simp only [populateEntries, hp, hlen, if_true, hw]
          constructor
          · intro p hpm
            simp only [entryWorlds, List.zip_cons_cons, List.mem_cons, hnext] at hpm
            rcases hpm with rfl | hpm
            · exact ⟨values, hv, hvl, by rw [hbatch, hres]⟩
            · exact hall p hpm
          · rw [hev, writesOf_append, populateProperties_writes, List.nil_append]
            simp only [writesOf, entryWorlds, List.zip_cons_cons, List.map_cons, hnext, hbatch,
              List.filter_cons, hne, ne_eq, not_false_eq_true, decide_True, if_true, hws]
        · simp [populateEntries, hp, hlen, hw] at hok
      · have hnil : props = [] := by
          cases props with
          | nil => rfl
          | cons a l => simp at hlen
        simp only [populateEntries, hp, hlen, if_false] at hok
        have hnext : worldAfterEntry env gens schema ed name e w =
            (populateProperties env gens schema name e e.Properties [] w).world := by
          simp only [worldAfterEntry, hbatch, hlen, if_false, hworld]
        obtain ⟨hall, hws⟩ := ih _ hok
        have hev : (populateEntries env gens schema ed name (e :: es) w).events =
            (populateProperties env gens schema name e e.Properties [] w).events ++
              (populateEntries env gens schema ed name es
                (populateProperties env gens schema name e e.Properties [] w).world).events := by
          simp only [populateEntries, hp, hlen, if_false]
        constructor
        · intro p hpm
          simp only [entryWorlds, List.zip_cons_cons, List.mem_cons, hnext] at hpm
          rcases hpm with rfl | hpm
          · exact ⟨values, hv, hvl, by rw [hbatch, hres]⟩
          · exact hall p hpm
        · rw [hev, writesOf_append, populateProperties_writes, List.nil_append, hws]
          simp only [entryWorlds, List.zip_cons_cons, List.map_cons, hnext, hbatch,
            List.filter_cons, hnil, ne_eq, not_true_eq_false, decide_False]
          simp
    · simp [populateEntries, hp] at hok

/-- The writes of populate for one descriptor with a verification error: their keys are,
in order, keys of distinct entry errors, so no key is written twice when the entry
errors have pairwise distinct keys; and on success the calls are, in reported order,
the non-empty batches of the entry errors, each resolved in the world the run has
reached and holding the properties with a non-empty value. -/
theorem populatePair_writes {W E : Type} (env : Env W E)
    (gens : String → Option (Generator W)) (schema : Option Schema) (ed : E) (r : SecretPair)
    (w : W) (err : SecretError) (he : r.Error = some err) :
    ((writesOf (populatePair env gens schema ed r w).events).map KeyProperties.Key).Sublist
      (err.EntryErrors.map EntryError.Key) ∧
    ((err.EntryErrors.map EntryError.Key).Nodup →
      ((writesOf (populatePair env gens schema ed r w).events).map KeyProperties.Key).Nodup) ∧
    ((populatePair env gens schema ed r w).res = none →
      (∀ p ∈ err.EntryErrors.zip
          (entryWorlds env gens schema ed r.ExternalSecret.Name err.EntryErrors w),
        ∃ values,
          generatedValues env gens schema r.ExternalSecret.Name p.1 p.1.Properties p.2
            = some values ∧
          values.length = p.1.Properties.length ∧
          entryBatch env gens schema r.ExternalSecret.Name p.1 p.2
            = populateBatch p.1.Properties values) ∧
      writesOf (populatePair env gens schema ed r w).events =
        ((err.EntryErrors.zip
            (entryWorlds env gens schema ed r.ExternalSecret.Name err.EntryErrors w)).map
          (fun p => (⟨p.1.Key, entryBatch env gens schema r.ExternalSecret.Name p.1 p.2⟩ :
            KeyProperties))).filter (fun kp => decide (kp.Properties ≠ []))) := by
  have hsub := populateEntries_sublist env gens schema ed r.ExternalSecret.Name
    err.EntryErrors w
  have hpair : populatePair env gens schema ed r w =
      populateEntries env gens schema ed r.ExternalSecret.Name err.EntryErrors w := by
    simp [populatePair, he]
  rw [hpair]
  refine ⟨hsub, fun hnd => hsub.nodup hnd, ?_⟩
  intro hok
  exact populateEntries_ok env gens schema ed r.ExternalSecret.Name err.EntryErrors w hok

/-- C5 (evaluation at the failing input). On a descriptor whose verification error
reports the key `creds` in two entry errors, a run of populate issues two `Write` calls
with that key, each carrying one of the two properties, where a run of edit over the
same descriptor issues one call carrying both. -/
theorem C5_two_writes_for_one_key :
    writesOf (populate.Run schemaEnv demoPopulate ([splitPair], none) 0).events
      = [⟨"creds", [⟨"token", "tok"⟩]⟩, ⟨"creds", [⟨"password", "generated"⟩]⟩] ∧
    ((writesOf (populate.Run schemaEnv demoPopulate ([splitPair], none) 0).events).filter
      (fun kp => decide (kp.Key = "creds"))).length = 2 ∧
    (populate.Run schemaEnv demoPopulate ([splitPair], none) 0).res = none ∧
    writesOf (edit.Run schemaEnv ⟨".", ""⟩ ([splitPair], none) 0).events
      = [⟨"creds", [⟨"token", "s3cret"⟩, ⟨"password", "s3cret"⟩]⟩] := by
  refine ⟨?_, ?_, ?_, ?_⟩ <;> decide

/-! ## C9: out-of-scope descriptors in edit -/

theorem NewEditor_congr {W E : Type} (env : Env W E) (s1 s2 : ExternalSecret)
    (h : s1.BackendType = s2.BackendType) : NewEditor env s1 = NewEditor env s2 := by
  simp [NewEditor, h]

theorem obtainEditor_error {W E : Type} (env : Env W E) (editors : String → Option E)
    (r : SecretPair) (err : Error)
    (hc : ∀ bt e, editors bt = some e → ∀ s : ExternalSecret, s.BackendType = bt →
      NewEditor env s = Except.ok e)
    (hn : NewEditor env r.ExternalSecret = Except.error err) :
    obtainEditor env editors r = Except.error
      (Wrapf err ("failed to create a secret editor for ExternalSecret " ++
        r.ExternalSecret.Name)) := by
  cases hcache : editors r.ExternalSecret.BackendType with
  | some e0 =>
    have := hc _ e0 hcache r.ExternalSecret rfl
    rw [hn] at this
    cases this
  | none => simp [obtainEditor, hcache, hn]

theorem obtainEditor_ok {W E : Type} (env : Env W E) (editors : String → Option E)
    (r : SecretPair) (ed : E)
    (hc : ∀ bt e, editors bt = some e → ∀ s : ExternalSecret, s.BackendType = bt →
      NewEditor env s = Except.ok e)
    (hn : NewEditor env r.ExternalSecret = Except.ok ed) :
    ∃ editors1, obtainEditor env editors r = Except.ok (ed, editors1) ∧
      ∀ bt e, editors1 bt = some e → ∀ s : ExternalSecret, s.BackendType = bt →
        NewEditor env s = Except.ok e := by
  cases hcache : editors r.ExternalSecret.BackendType with
  | some e0 =>
    have := hc _ e0 hcache r.ExternalSecret rfl
    rw [hn] at this
    cases this
    exact ⟨editors, by simp [obtainEditor, hcache], hc⟩
  | none =>
    refine ⟨fun k => if k = r.ExternalSecret.BackendType then some ed else editors k,
      by simp only [obtainEditor, hcache, hn], ?_⟩
    intro bt e hbt s hs
    by_cases hb : bt = r.ExternalSecret.BackendType
    · simp only [hb, if_true, Option.some.injEq] at hbt
      rw [← hbt, ← hn]
      exact NewEditor_congr env _ _ (hs.trans hb)
    · simp only [hb, if_false] at hbt
      exact hc bt e hbt s hs

theorem editLoop_cache {W E : Type} (env : Env W E) (o : edit.Options) (schema : Option Schema) :
    ∀ (rs : List SecretPair) (e1 e2 : String → Option E) (w : W),
      (∀ bt e, e1 bt = some e → ∀ s : ExternalSecret, s.BackendType = bt →
        NewEditor env s = Except.ok e) →
      (∀ bt e, e2 bt = some e → ∀ s : ExternalSecret, s.BackendType = bt →
        NewEditor env s = Except.ok e) →
      editLoop env o schema rs e1 w = editLoop env o schema rs e2 w := by
  intro rs
  induction rs with
  | nil => intro e1 e2 w _ _; rfl
  | cons r rs ih =>
    intro e1 e2 w h1 h2
    cases hn : NewEditor env r.ExternalSecret with
    | error err =>
      simp only [editLoop, obtainEditor_error env e1 r err h1 hn,
        obtainEditor_error env e2 r err h2 hn]
    | ok ed =>
      obtain ⟨c1, ho1, hc1⟩ := obtainEditor_ok env e1 r ed h1 hn
      obtain ⟨c2, ho2, hc2⟩ := obtainEditor_ok env e2 r ed h2 hn
      simp only [editLoop, ho1, ho2]
      rw [ih c1 c2 w hc1 hc2, ih c1 c2 (editPair env o schema ed r w).world hc1 hc2]

theorem editLoop_skip {W E : Type} (env : Env W E) (o : edit.Options) (schema : Option Schema)
    (r : SecretPair) (post : List SecretPair) (ed : E)
    (hm : Matches env o r = false) (hn : NewEditor env r.ExternalSecret = Except.ok ed) :
    ∀ (pre : List SecretPair) (editors : String → Option E) (w : W),
      (∀ bt e, editors bt = some e → ∀ s : ExternalSecret, s.BackendType = bt →
        NewEditor env s = Except.ok e) →
      editLoop env o schema (pre ++ r :: post) editors w =
        editLoop env o schema (pre ++ post) editors w := by
  intro pre
  induction pre with
  | nil =>
    intro editors w hc
    obtain ⟨c1, ho1, hc1⟩ := obtainEditor_ok env editors r ed hc hn
    simp only [List.nil_append, editLoop, ho1, hm]
    exact editLoop_cache env o schema post c1 editors w hc1 hc
  | cons r0 pre ih =>
    intro editors w hc
    cases hn0 : NewEditor env r0.ExternalSecret with
    | error err =>
      simp only [List.cons_append, editLoop, obtainEditor_error env editors r0 err hc hn0]
    | ok ed0 =>
      obtain ⟨c1, ho1, hc1⟩ := obtainEditor_ok env editors r0 ed0 hc hn0
      have h1 := ih c1 w hc1
      have h2 := ih c1 (editPair env o schema ed0 r0 w).world hc1
      simp only [List.cons_append, editLoop, ho1, List.append_eq]
      rw [h1, h2]

theorem editLoop_stops_of_error {W E : Type} (env : Env W E) (o : edit.Options)
    (schema : Option Schema) (r : SecretPair) (post : List SecretPair) (err : Error)
    (hn : NewEditor env r.ExternalSecret = Except.error err) :
    ∀ (pre : List SecretPair) (editors : String → Option E) (w : W),
      (∀ bt e, editors bt = some e → ∀ s : ExternalSecret, s.BackendType = bt →
        NewEditor env s = Except.ok e) →
      (editLoop env o schema (pre ++ r :: post) editors w).res ≠ none ∧
      (editLoop env o schema (pre ++ r :: post) editors w).events =
        (editLoop env o schema pre editors w).events := by
  intro pre
  induction pre with
  | nil =>
    intro editors w hc
    simp [editLoop, obtainEditor_error env editors r err hc hn]
  | cons r0 pre ih =>
    intro editors w hc
    cases hn0 : NewEditor env r0.ExternalSecret with
    | error err0 =>
      simp [editLoop, obtainEditor_error env editors r0 err0 hc hn0]
    | ok ed0 =>
      obtain ⟨c1, ho1, hc1⟩ := obtainEditor_ok env editors r0 ed0 hc hn0
      by_cases hm : Matches env o r0 = true
      · cases hp : (editPair env o schema ed0 r0 w).res with
        | some e1 => simp [editLoop, ho1, hm, hp]
        | none =>
          obtain ⟨h1, h2⟩ := ih c1 (editPair env o schema ed0 r0 w).world hc1
          simp only [List.cons_append, editLoop, ho1, hm, if_true, hp]
          exact ⟨h1, congrArg (fun t => (editPair env o schema ed0 r0 w).events ++ t) h2⟩
      · simp only [List.cons_append, editLoop, ho1, hm]
        exact ih c1 w hc1

/-- C9 (counterexample). A populated descriptor of an unsupported backend type is out of
scope with no filter, yet the run over it alone returns an error while the run over no
descriptor succeeds. -/
theorem C9_out_of_scope_changes_outcome :
    Matches demoEnv ⟨".", ""⟩ ⟨⟨"legacy", "unknown", [⟨"k", "p"⟩]⟩, none⟩ = false ∧
    (edit.Run demoEnv ⟨".", ""⟩ ([⟨⟨"legacy", "unknown", [⟨"k", "p"⟩]⟩, none⟩], none) 0).res ≠ none ∧
    (edit.Run demoEnv ⟨".", ""⟩ ([], none) 0).res = none := by
  refine ⟨?_, ?_, ?_⟩ <;> decide

/-- C9 (amended). An out-of-scope descriptor of edit `Run` (no filter and not invalid, or
a filter its name does not contain) causes no prompt and no `Write`, but its editor is
obtained before the scope check: when the factory yields an editor for its backend
type, and the schema loads or other descriptors remain, the run returns the same
error, makes the same calls and leaves the same world as the run without the
descriptor; when the factory fails, the run returns an error having made exactly the
calls of the run over the descriptors before it. -/
theorem C9_out_of_scope_skipped {W E : Type} (env : Env W E) (o : edit.Options)
    (r : SecretPair) (pre post : List SecretPair) (w : W)
    (hout : (o.Filter = "" ∧ env.IsInvalid r = false) ∨
      (o.Filter ≠ "" ∧ ¬ ∃ a b : String, r.ExternalSecret.Name = a ++ o.Filter ++ b)) :
    Matches env o r = false ∧
    (∀ ed, NewEditor env r.ExternalSecret = Except.ok ed →
      (pre ++ post ≠ [] ∨ (env.LoadSchema o.Dir).2 = none) →
      (edit.Run env o (pre ++ r :: post, none) w).res = (edit.Run env o (pre ++ post, none) w).res ∧
      (edit.Run env o (pre ++ r :: post, none) w).events
        = (edit.Run env o (pre ++ post, none) w).events ∧
      (edit.Run env o (pre ++ r :: post, none) w).world
        = (edit.Run env o (pre ++ post, none) w).world) ∧
    (∀ err, NewEditor env r.ExternalSecret = Except.error err →
      (edit.Run env o (pre ++ r :: post, none) w).res ≠ none ∧
      (edit.Run env o (pre ++ r :: post, none) w).events = (edit.Run env o (pre, none) w).events) := by
  have hm : Matches env o r = false := by
    rcases hout with ⟨hf, hi⟩ | ⟨hf, hc⟩
    · simp [Matches, hf, hi]
    · simp only [Matches, hf, if_false]
      cases hs : stringsContains r.ExternalSecret.Name o.Filter with
      | false => rfl
      | true => exact absurd ((stringsContains_iff _ _).mp hs) hc
  have hlen : ¬ (pre ++ r :: post).length = 0 := by simp
  have hempty : ∀ bt (e : E), (fun _ : String => (none : Option E)) bt = some e →
      ∀ s : ExternalSecret, s.BackendType = bt → NewEditor env s = Except.ok e := by
    intro bt e h
    cases h
  refine ⟨hm, ?_, ?_⟩
  · intro ed hn hrest
    rcases hl : env.LoadSchema o.Dir with ⟨schema, _ | lerr⟩
    · have hskip := editLoop_skip env o schema r post ed hm hn pre (fun _ => none) w hempty
      by_cases hp : (pre ++ post).length = 0
      · have hnil : pre ++ post = [] := List.length_eq_zero.mp hp
        simp only [edit.Run, hlen, if_false, hl, hskip, hnil, editLoop, List.length_nil,
          if_true, and_self]
      · simp only [edit.Run, hlen, if_false, hl, hskip, hp, and_self]
    · rcases hrest with hne | hload
      · have hp : ¬ (pre ++ post).length = 0 := fun h => hne (List.length_eq_zero.mp h)
        simp only [edit.Run, hlen, if_false, hl, hp, and_self]
      · rw [hl] at hload
        cases hload
  · intro err hn
    rcases hl : env.LoadSchema o.Dir with ⟨schema, _ | lerr⟩
    · obtain ⟨h1, h2⟩ := editLoop_stops_of_error env o schema r post err hn pre
        (fun _ => none) w hempty
      simp only [edit.Run, hlen, if_false, hl]
      refine ⟨h1, ?_⟩
      rw [h2]
      cases pre with
      | nil => simp [editLoop]
      | cons r0 pre => simp
    · simp only [edit.Run, hlen, if_false, hl]
      refine ⟨by simp, ?_⟩
      by_cases hp : pre.length = 0 <;> simp [hp]

/-- A populated descriptor on a supported backend, between two invalid ones, changes none
of the calls of an unfiltered run of edit. -/
theorem C9_out_of_scope_skipped_witness :
    ((("" : String) = "" ∧
        demoEnv.IsInvalid ⟨⟨"cache", "gcpSecretsManager", [⟨"k", "p"⟩]⟩, none⟩ = false) ∨
      (("" : String) ≠ "" ∧ ¬ ∃ a b : String, "cache" = a ++ "" ++ b)) ∧
    NewEditor demoEnv ⟨"cache", "gcpSecretsManager", [⟨"k", "p"⟩]⟩ = Except.ok 1 ∧
    (edit.Run demoEnv ⟨".", ""⟩
        ([demoPair] ++ ⟨⟨"cache", "gcpSecretsManager", [⟨"k", "p"⟩]⟩, none⟩ :: [demoPair], none)
        0).events
      = (edit.Run demoEnv ⟨".", ""⟩ ([demoPair] ++ [demoPair], none) 0).events :=
  ⟨Or.inl ⟨rfl, rfl⟩, rfl,
    ((C9_out_of_scope_skipped demoEnv ⟨".", ""⟩
      ⟨⟨"cache", "gcpSecretsManager", [⟨"k", "p"⟩]⟩, none⟩ [demoPair] [demoPair] 0
      (Or.inl ⟨rfl, rfl⟩)).2.1 1 rfl (Or.inl (by simp))).2.1⟩

end JxSecret
